import Mathlib

/-!
# Verification of vite-plugin-cross-origin-storage

Shallow embedding of the two halves of the plugin:

* the build-time graph rewriter / hash & manifest builder
  (`generateBundle` in `src/index.ts`, first variant, the one the
  claims' line numbers point at), and
* the runtime loader (`src/loader.js`): the content-addressed store
  resolver (`getBlobFromCOS` / `storeBlobInCOS`), the raw-content
  cache (`loadRawContent`), the per-chunk resolver (`resolveChunk`)
  and the bootstrap IIFE.

Modelling conventions:

* Chunk code is a list of module statements (`Stmt`); the regex-based
  rewriting of the TypeScript source operates at statement granularity
  on recognized import/export/dynamic-import forms, which is exactly
  the granularity this type captures.  `render` serializes a statement
  list back to the byte string that is hashed and served.
* The cryptographic digest `crypto.createHash('sha256')...digest('hex')`
  is a parameter `H : String → String` of the build model; claims about
  "digest changes iff bytes change" take injectivity of `H` as a
  hypothesis, which is the standing collision-freeness assumption.
* Node's `path.dirname` / `path.relative` are modelled for POSIX-style
  Rollup output paths (no trailing slashes, `/`-separated).
* The loader's async control flow is sequential (every awaited call is
  awaited to completion before the next statement), so it is embedded
  as explicit state passing; recursion is fuel-indexed.  A ghost event
  trace records network fetches, resolution-table inserts and the
  final entry import, so temporal claims become statements about the
  trace.
-/

namespace COS

/-! ## Module statements -/

/-- A recognized module-reference statement, or opaque other text.
These are the syntactic forms the plugin's regexes recognize
(`src/index.ts` lines 129-139): static imports (named, namespace,
default, side-effect), re-exports (named, `export * as`, `export *`)
and dynamic imports. -/
inductive Stmt where
  | importNamed (names spec : String)
  | importNs (nsName spec : String)
  | importDefault (defName spec : String)
  | importBare (spec : String)
  | exportNamed (names spec : String)
  | exportStarAs (nsName spec : String)
  | exportStar (spec : String)
  | dynImport (spec : String)
  | other (text : String)
deriving DecidableEq, Repr

/-- The module specifier of a reference statement, if any. -/
def Stmt.spec? : Stmt → Option String
  | .importNamed _ s => some s
  | .importNs _ s => some s
  | .importDefault _ s => some s
  | .importBare s => some s
  | .exportNamed _ s => some s
  | .exportStarAs _ s => some s
  | .exportStar s => some s
  | .dynImport s => some s
  | .other _ => none

/-- Replace the module specifier of a reference statement. -/
def Stmt.withSpec : Stmt → String → Stmt
  | .importNamed n _, s => .importNamed n s
  | .importNs n _, s => .importNs n s
  | .importDefault n _, s => .importDefault n s
  | .importBare _, s => .importBare s
  | .exportNamed n _, s => .exportNamed n s
  | .exportStarAs n _, s => .exportStarAs n s
  | .exportStar _, s => .exportStar s
  | .dynImport _, s => .dynImport s
  | .other t, _ => .other t

/-- Whether the statement carries a `from` keyword.  The loader's
dependency scan (`src/loader.js` line 108) is the regex
`/from\s+['"]\.\/([^'"]+)['"]/g`, so only `from`-bearing statements
are recognized as dependencies; side-effect and dynamic
references have no `from`. -/
def Stmt.hasFrom : Stmt → Bool
  | .importNamed _ _ => true
  | .importNs _ _ => true
  | .importDefault _ _ => true
  | .exportNamed _ _ => true
  | .exportStarAs _ _ => true
  | .exportStar _ => true
  | _ => false

/-- Whether the loader's text substitution (`src/loader.js` lines
125-135) rewrites this statement: it replaces `from "./dep"` in
`from`-bearing statements and `import("./dep")` dynamic imports, but
a bare side-effect `import "./dep"` matches neither pattern. -/
def Stmt.loaderReplaceable : Stmt → Bool
  | .dynImport _ => true
  | s => s.hasFrom

/-- Serialization of a statement back to source text. -/
def Stmt.render : Stmt → String
  | .importNamed n s => "import \x7b" ++ n ++ "\x7d from \"" ++ s ++ "\";"
  | .importNs n s => "import * as " ++ n ++ " from \"" ++ s ++ "\";"
  | .importDefault n s => "import " ++ n ++ " from \"" ++ s ++ "\";"
  | .importBare s => "import \"" ++ s ++ "\";"
  | .exportNamed n s => "export \x7b" ++ n ++ "\x7d from \"" ++ s ++ "\";"
  | .exportStarAs n s => "export * as " ++ n ++ " from \"" ++ s ++ "\";"
  | .exportStar s => "export * from \"" ++ s ++ "\";"
  | .dynImport s => "import(\"" ++ s ++ "\")"
  | .other t => t

/-- Rendering of a whole chunk body: the exact bytes written to disk
and later served/hashed. -/
def render (code : List Stmt) : String :=
  String.intercalate "\n" (code.map Stmt.render)

/-! ## POSIX path helpers (model of node `path` for Rollup file names) -/

/-- Split a list of characters on a separator character. -/
def splitCharsOn (sep : Char) : List Char → List (List Char)
  | [] => [[]]
  | c :: cs =>
    let r := splitCharsOn sep cs
    if c = sep then [] :: r
    else
      match r with
      | h :: t => (c :: h) :: t
      | [] => [[c]]

/-- Path segments of a `/`-separated path. -/
def segsOf (p : String) : List String :=
  (splitCharsOn '/' p.toList).map List.asString

/-- Join path segments with `/`. -/
def joinSegs : List String → String
  | [] => ""
  | [x] => x
  | x :: xs => x ++ "/" ++ joinSegs xs

/-- Model of node `path.dirname` on POSIX output paths. -/
def dirname (p : String) : String :=
  let parts := segsOf p
  if parts.length ≤ 1 then "." else joinSegs parts.dropLast

/-- Segment-level relative path: model of node `path.relative` on
already-normalized paths. -/
def relSegs : List String → List String → List String
  | [], ts => ts
  | f :: fs, [] => (f :: fs).map fun _ => ".."
  | f :: fs, t :: ts =>
    if f = t then relSegs fs ts
    else ((f :: fs).map fun _ => "..") ++ (t :: ts)

/-- Does the string start with `.`? (model of the single-character
`startsWith('.')` check at `src/index.ts` line 126). -/
def startsDot (s : String) : Bool :=
  match s.toList with
  | '.' :: _ => true
  | _ => false

/-- The exact relative specifier that the build-time rewriter
expects an importer chunk to use for a dependency (`src/index.ts` lines 124-126):
`path.relative(path.dirname(importer), dep)` with a `./` prefix added
when the result does not already start with `.`. -/
def relPathOf (importerFileName depFileName : String) : String :=
  let fromDir := dirname importerFileName
  let fromSegs := if fromDir = "." then [] else segsOf fromDir
  let rel := joinSegs (relSegs fromSegs (segsOf depFileName))
  if startsDot rel then rel else "./" ++ rel

/-! ## Build-time model (`generateBundle`, `src/index.ts`) -/

/-- A Rollup output chunk, as `generateBundle` consumes it.  Assets
(the html file) only feed the loader-injection step, which is outside
the claims, so the bundle is modelled as its chunk-typed members. -/
structure OutputChunk where
  fileName : String
  code : List Stmt
  isEntry : Bool
  imports : List String
  dynamicImports : List String
  exports : List String
deriving DecidableEq, Repr

/-- One value of the manifest object built at `src/index.ts` lines
171-209: a managed-chunk record, an unmanaged (import-map only)
record, or the entry (`'index'`) record. -/
inductive ManifestRecord where
  | managedRec (fileName file hash globalVar : String) (hasDefault : Bool)
  | unmanagedRec (fileName file : String)
  | indexRec (file : String)
deriving DecidableEq, Repr

/-- JS object assignment `m[k] = v`: replaces in place if the key
exists (keeping its position), appends otherwise. -/
def objInsert (k : String) (v : ManifestRecord) :
    List (String × ManifestRecord) → List (String × ManifestRecord)
  | [] => [(k, v)]
  | (k', v') :: rest =>
    if k' = k then (k', v) :: rest else (k', v') :: objInsert k v rest

/-- Normalization of `config.base` (`src/index.ts` line 173). -/
def normalizeBase (b : String) : String :=
  if b.toList.getLast? = some '/' then b else b ++ "/"

/-- Stable global variable name for a managed chunk (`src/index.ts`
lines 83-85): `__COS_CHUNK_` + first 8 hex digits of the digest of the
file name. -/
def globalVarFor (H : String → String) (fileName : String) : String :=
  "__COS_CHUNK_" ++ ((H fileName).toList.take 8).asString ++ "__"

/-- Chunk classification (`src/index.ts` lines 57-68): entry chunks are
set aside as the main chunk; only non-entry chunks go through the
include/exclude filter. -/
def managedNames (filter : String → Bool) (bundle : List OutputChunk) :
    List String :=
  (bundle.filter fun c => !c.isEntry && filter c.fileName).map (·.fileName)

/-- The main chunk: the loop at `src/index.ts` lines 57-68 overwrites
`mainChunk` on every entry chunk, so the last one wins. -/
def mainChunkOf (bundle : List OutputChunk) : Option OutputChunk :=
  (bundle.filter (·.isEntry)).getLast?

/-- One pop of the transitive-dependency worklist (`src/index.ts`
lines 98-112): take the next queued name, add each of its static and
dynamic imports to the needed set, and queue a dependency for further
exploration only when it exists in the bundle and is not managed. -/
def neededLoop (bundle : List OutputChunk) (managed : List String) :
    Nat → List String → List String → List String
  | 0, acc, _ => acc
  | _ + 1, acc, [] => acc
  | g + 1, acc, current :: rest =>
    match bundle.find? fun c => c.fileName = current with
    | none => neededLoop bundle managed g acc rest
    | some c =>
      let p := (c.imports ++ c.dynamicImports).foldl
        (fun (p : List String × List String) dep =>
          if dep ∈ p.1 then p
          else
            let acc' := p.1 ++ [dep]
            match bundle.find? fun ch => ch.fileName = dep with
            | some _ => if dep ∈ managed then (acc', p.2) else (acc', p.2 ++ [dep])
            | none => (acc', p.2))
        (acc, rest)
      neededLoop bundle managed g p.1 p.2

/-- Model of `chunksNeededInImportMap`: managed chunks plus every chunk they
transitively require.  The fuel bound over-approximates the total
number of worklist iterations, which is bounded by the queue's initial
length plus the total number of dependency edges. -/
def chunksNeeded (bundle : List OutputChunk) (managed : List String) :
    List String :=
  neededLoop bundle managed
    (bundle.foldl (fun n c => n + 1 + c.imports.length + c.dynamicImports.length)
      (managed.length + 1))
    managed managed

/-- Build-time rewrite of one statement for one dependency: the three
regexes at `src/index.ts` lines 129-139 each match a recognized form
whose quoted specifier is exactly `relPath`, and the replacement keeps
the binding form while swapping the specifier for the bare one. -/
def rewriteStmtBuild (relPath bare : String) (s : Stmt) : Stmt :=
  match s.spec? with
  | some sp => if sp = relPath then s.withSpec bare else s
  | none => s

/-- Step 2 of `generateBundle` for one chunk (`src/index.ts` lines
114-168): for every bundle member `dep`, if the reference's target or
the chunk being rewritten is managed, replace references using the
expected relative specifier with the bare file name. -/
def rewriteChunk (managed : List String) (depNames : List String)
    (c : OutputChunk) : OutputChunk :=
  depNames.foldl
    (fun tc dep =>
      if dep ∈ managed ∨ tc.fileName ∈ managed then
        { tc with code := tc.code.map (rewriteStmtBuild (relPathOf tc.fileName dep) dep) }
      else tc)
    c

/-- Step 2 over the whole bundle: each chunk's code is rewritten in
place; the rewrite reads only file names, never other chunks' code. -/
def rewriteBundle (managed : List String) (bundle : List OutputChunk) :
    List OutputChunk :=
  bundle.map (rewriteChunk managed (bundle.map (·.fileName)))

/-- Step 4 (`src/index.ts` lines 175-204): walk the (rewritten) bundle
in order and emit a manifest record for every chunk in the needed set:
a managed record (with the content hash of the now-final code, the
global variable, and default-export metadata from Rollup's `exports`
list) or an unmanaged record. -/
def buildManifest (H : String → String) (base : String)
    (needed managed : List String) (rewritten : List OutputChunk) :
    List (String × ManifestRecord) :=
  rewritten.foldl
    (fun m c =>
      if c.fileName ∈ needed then
        if c.fileName ∈ managed then
          m ++ [(c.fileName,
            .managedRec c.fileName (base ++ c.fileName) (H (render c.code))
              (globalVarFor H c.fileName) (c.exports.contains "default"))]
        else
          m ++ [(c.fileName, .unmanagedRec c.fileName (base ++ c.fileName))]
      else m)
    []

/-- The zero-or-one manifest records the Step 4 loop emits for one
bundle chunk (used to restate the loop's accumulator as an append). -/
def manifestEntryFor (H : String → String) (base : String)
    (needed managed : List String) (c : OutputChunk) :
    List (String × ManifestRecord) :=
  if c.fileName ∈ needed then
    if c.fileName ∈ managed then
      [(c.fileName,
        .managedRec c.fileName (base ++ c.fileName) (H (render c.code))
          (globalVarFor H c.fileName) (c.exports.contains "default"))]
    else
      [(c.fileName, .unmanagedRec c.fileName (base ++ c.fileName))]
  else []

/-- Result of the build model: the rewritten chunks (the bytes that
are emitted and served) and the manifest embedded into the loader. -/
structure BuildOutput where
  chunks : List OutputChunk
  manifest : List (String × ManifestRecord)
deriving DecidableEq, Repr

/-- The `generateBundle` hook (`src/index.ts` lines 52-235, first
variant): classify chunks, compute the transitive needed set, rewrite
references, then hash the final bytes and assemble the manifest, with
the `'index'` entry record appended last.  Returns `none` when there
is no entry chunk (`if (mainChunk)` guard), in which case nothing is
rewritten and no manifest exists. -/
def generateBundle (H : String → String) (filter : String → Bool)
    (baseCfg : String) (bundle : List OutputChunk) : Option BuildOutput :=
  match mainChunkOf bundle with
  | none => none
  | some mainChunk =>
    let managed := managedNames filter bundle
    let needed := chunksNeeded bundle managed
    let rewritten := rewriteBundle managed bundle
    let base := normalizeBase baseCfg
    let manifest₀ := buildManifest H base needed managed rewritten
    some ⟨rewritten, objInsert "index" (.indexRec (base ++ mainChunk.fileName)) manifest₀⟩

/-! ## Runtime model (`src/loader.js`) -/

/-- Characters of the base64 alphabet used by `btoa`. -/
def base64Table : List Char :=
  "ABCDEFGHIJKLMNOPQRSTUVWXYZabcdefghijklmnopqrstuvwxyz0123456789+/".toList

/-- One base64 digit. -/
def b64digit (n : Nat) : Char := base64Table.getD n 'A'

/-- Base64-encode a byte list (standard padding). -/
def b64encode : List Nat → List Char
  | [] => []
  | [a] =>
    let n := a * 65536
    [b64digit (n / 262144), b64digit (n / 4096 % 64), '=', '=']
  | [a, b] =>
    let n := a * 65536 + b * 256
    [b64digit (n / 262144), b64digit (n / 4096 % 64), b64digit (n / 64 % 64), '=']
  | a :: b :: c :: rest =>
    let n := a * 65536 + b * 256 + c
    b64digit (n / 262144) :: b64digit (n / 4096 % 64) ::
      b64digit (n / 64 % 64) :: b64digit (n % 64) :: b64encode rest

/-- Model of the browser's `btoa` on the (ASCII) shim source. -/
def btoa (s : String) : String :=
  (b64encode (s.toList.map Char.toNat)).asString

/-- Runtime view of one managed manifest record, as the loader reads
it (`src/loader.js` lines 17-20: anything with a `hash`). -/
structure ManifestChunk where
  fileName : String
  file : String
  hash : String
  hasDefault : Bool
deriving DecidableEq, Repr

/-- Outcome of a store read (`requestFileHandles` + `getFile`):
content found, a `NotFoundError`, or some other failure. -/
inductive StoreRead where
  | found (content : List Stmt)
  | notFound
  | failure (name : String)
deriving DecidableEq

/-- Outcome of a store write (`requestFileHandles` with `create` +
`createWritable`/`write`/`close`). -/
inductive StoreWrite where
  | ok
  | failure (name : String)
deriving DecidableEq

/-- The external world the loader runs against.  Chunk bytes are
modelled at statement granularity (`blob.text()` of a served chunk is
`render` of its statement list).  `network f = none` models a thrown
fetch error or a non-ok response status. -/
structure World where
  isCOSAvailable : Bool
  storeRead : String → StoreRead
  storeWrite : String → StoreWrite
  network : String → Option (List Stmt)

/-- Resolution result per chunk (`src/loader.js` line 57):
`{ blobUrl, shimUrl }`. -/
structure ResolvedUrl where
  blobUrl : String
  shimUrl : String
deriving DecidableEq, Repr

/-- Ghost trace events: a network fetch (recorded with both the chunk
file name and the fetched path), an insert into the resolution table
`resolvedUrls`, and the final entry-module import. -/
inductive Event where
  | fetch (fileName file : String)
  | tableInsert (fileName : String)
  | importIssued (url : String)
deriving DecidableEq, Repr

/-- Loader state: the `rawContent` text cache, the `resolvedUrls`
resolution table, the `processing` cycle-guard set, the registry of
created blob URLs (`URL.createObjectURL`), a counter generating fresh
blob URLs, and the ghost event trace. -/
structure LoaderState where
  rawContent : List (String × List Stmt)
  resolvedUrls : List (String × ResolvedUrl)
  processing : List String
  blobs : List (String × List Stmt)
  blobCounter : Nat
  trace : List Event
deriving DecidableEq, Repr

/-- The state at the start of a page load. -/
def LoaderState.init : LoaderState := ⟨[], [], [], [], 0, []⟩

/-- Model of `getBlobFromCOS` (`src/loader.js` lines 22-36): absent capability
or a not-found outcome yields `null`; any other store-read failure is
logged (ghost) and also yields `null`. -/
def getBlobFromCOS (w : World) (hash : String) : Option (List Stmt) :=
  if !w.isCOSAvailable then none
  else
    match w.storeRead hash with
    | .found b => some b
    | .notFound => none
    | .failure _ => none

/-- Model of `storeBlobInCOS` (`src/loader.js` lines 38-54): best-effort write;
every failure is caught and logged inside the function, so the caller
only ever sees the (discarded) outcome value. -/
def storeBlobInCOS (w : World) (hash : String) : StoreWrite :=
  if !w.isCOSAvailable then .ok else w.storeWrite hash

/-- Model of `loadRawContent` (`src/loader.js` lines 63-82): serve from the
`rawContent` cache, else from the store, else fetch from the network
(recording a ghost fetch event at the point the `fetch` call is
issued, before the status check); on a successful fetch the store
write-back is fired and its outcome discarded. -/
def loadRawContent (w : World) (st : LoaderState) (c : ManifestChunk) :
    Option (List Stmt) × LoaderState :=
  match st.rawContent.lookup c.fileName with
  | some t => (some t, st)
  | none =>
    match getBlobFromCOS w c.hash with
    | some blob =>
      (some blob, { st with rawContent := st.rawContent ++ [(c.fileName, blob)] })
    | none =>
      let st₁ := { st with trace := st.trace ++ [Event.fetch c.fileName c.file] }
      match w.network c.file with
      | none => (none, st₁)
      | some blob =>
        let _writeOutcome := storeBlobInCOS w c.hash
        (some blob, { st₁ with rawContent := st₁.rawContent ++ [(c.fileName, blob)] })

/-- First-occurrence deduplication (the `Set` of dependency names at
`src/loader.js` line 110). -/
def dedup (l : List String) : List String :=
  l.foldl (fun acc x => if x ∈ acc then acc else acc ++ [x]) []

/-- Dependency scan (`src/loader.js` lines 106-113): every capture of
`/from\s+['"]\.\/([^'"]+)['"]/g`, i.e. the specifier minus the leading
`./` of every `from`-bearing statement whose specifier starts with
`./`, deduplicated in first-occurrence order. -/
def depsOf (code : List Stmt) : List String :=
  dedup (code.filterMap fun s =>
    match s.spec? with
    | some sp =>
      if s.hasFrom then
        match sp.toList with
        | '.' :: '/' :: rest => some rest.asString
        | _ => none
      else none
    | none => none)

/-- The loader's per-dependency substitution (`src/loader.js` lines
125-135): replace `from "./dep"` / `import("./dep")` occurrences with
the dependency's shim URL. -/
def applyReplacement (depName url : String) (code : List Stmt) : List Stmt :=
  code.map fun s =>
    if s.loaderReplaceable && s.spec? == some ("./" ++ depName) then s.withSpec url
    else s

/-- The re-export shim source (`src/loader.js` line 141): a namespace
re-export of the blob, plus an explicit `default` re-export exactly
when the manifest metadata says the chunk has a default export. -/
def buildShim (blobUrl : String) (hasDefault : Bool) : String :=
  "export * from \"" ++ blobUrl ++ "\";" ++
    (if hasDefault then "export \x7b default \x7d from \"" ++ blobUrl ++ "\";" else "")

/-- The dependency-resolution loop of `resolveChunk` (the `for` loop
at `src/loader.js` lines 116-122): resolve each dependency in order
with the given resolver, collecting the shim URL of each successfully
resolved dependency as a pending replacement. -/
def resolveDeps (rc : LoaderState → String → Option ResolvedUrl × LoaderState) :
    List String → List (String × String) × LoaderState →
    List (String × String) × LoaderState
  | [], p => p
  | d :: ds, p =>
    match rc p.2 d with
    | (some r, st') => resolveDeps rc ds (p.1 ++ [(d, r.shimUrl)], st')
    | (none, st') => resolveDeps rc ds (p.1, st')

/-- Model of `resolveChunk` (`src/loader.js` lines 84-147), fuel-indexed.
Already-resolved identifiers return their cached entry; identifiers in
the `processing` set (the cycle guard) return `null` with the state
untouched; unknown identifiers (not in the hash-bearing manifest map)
return `null`; otherwise the chunk's bytes are loaded, each scanned
dependency is resolved recursively (a failed dependency is skipped),
successful shim URLs are substituted into the code, a blob URL and a
base64 data-URL shim are created, and the resolution table is updated
before the entry is returned. -/
def resolveChunk (w : World) (chunks : List ManifestChunk) :
    Nat → LoaderState → String → Option ResolvedUrl × LoaderState
  | 0, st, _ => (none, st)
  | fuel + 1, st, fileName =>
    match st.resolvedUrls.lookup fileName with
    | some r => (some r, st)
    | none =>
      if fileName ∈ st.processing then (none, st)
      else
        let st₁ := { st with processing := st.processing ++ [fileName] }
        match chunks.find? fun c => c.fileName = fileName with
        | none => (none, st₁)
        | some c =>
          match loadRawContent w st₁ c with
          | (none, st₂) => (none, st₂)
          | (some code₀, st₂) =>
            let folded := resolveDeps (resolveChunk w chunks fuel) (depsOf code₀) ([], st₂)
            let code := folded.1.foldl (fun cd pr => applyReplacement pr.1 pr.2 cd) code₀
            let st₃ := folded.2
            let blobUrl := "blob:cos/" ++ toString st₃.blobCounter
            let st₄ := { st₃ with
              blobs := st₃.blobs ++ [(blobUrl, code)]
              blobCounter := st₃.blobCounter + 1 }
            let shimUrl := "data:text/javascript;base64," ++ btoa (buildShim blobUrl c.hasDefault)
            let r : ResolvedUrl := ⟨blobUrl, shimUrl⟩
            (some r, { st₄ with
              resolvedUrls := st₄.resolvedUrls ++ [(fileName, r)]
              processing := st₄.processing.erase fileName
              trace := st₄.trace ++ [Event.tableInsert fileName] })

/-- The bootstrap IIFE's initialization (`src/loader.js` lines
150-166): resolve the entry's file name, then — only on success —
issue the import of the entry's shim URL (the ghost import event). -/
def bootstrap (w : World) (chunks : List ManifestChunk)
    (entryFileName : String) (fuel : Nat) : Option String × LoaderState :=
  match resolveChunk w chunks fuel LoaderState.init entryFileName with
  | (some r, st) =>
    (some r.shimUrl, { st with trace := st.trace ++ [Event.importIssued r.shimUrl] })
  | (none, st) => (none, st)

/-! ## Derived notions used by the specification claims -/

/-- The final served bytes of the chunk stored under a file name in the
build output. -/
def finalBytes (out : BuildOutput) (fn : String) : Option String :=
  (out.chunks.find? fun c => c.fileName = fn).map fun c => render c.code

/-- Is this ghost event a network fetch of chunk `g`? -/
def isFetchOf (g : String) : Event → Bool
  | .fetch fn _ => fn = g
  | _ => false

/-- Number of network fetches issued so far for the chunk named `g`. -/
def fetchCount (st : LoaderState) (g : String) : Nat :=
  (st.trace.filter (isFetchOf g)).length

/-- A chunk name whose resolution has begun: it is in the `processing`
cycle-guard set (Resolving) or already in the resolution table
(Resolved). -/
def started (st : LoaderState) (g : String) : Prop :=
  g ∈ st.processing ∨ (st.resolvedUrls.lookup g).isSome

/-- Fetch-deduplication invariant: no chunk has been fetched twice,
and chunks whose resolution has not begun have not been fetched. -/
def FetchInv (st : LoaderState) : Prop :=
  ∀ g, fetchCount st g ≤ 1 ∧ (¬ started st g → fetchCount st g = 0)

/-- Shape of a resolution-table entry: its shim URL is the base64 data
URL of `buildShim` applied to some blob URL and to the `hasDefault`
metadata recorded in the manifest for that chunk. -/
def ShimShape (chunks : List ManifestChunk) (g : String) (rr : ResolvedUrl) : Prop :=
  ∃ c bu, (chunks.find? fun c => c.fileName = g) = some c ∧
    rr.shimUrl = "data:text/javascript;base64," ++ btoa (buildShim bu c.hasDefault)

/-- Every resolution-table entry has `ShimShape`. -/
def ShimInv (chunks : List ManifestChunk) (st : LoaderState) : Prop :=
  ∀ g rr, st.resolvedUrls.lookup g = some rr → ShimShape chunks g rr

/-- State evolution contract of one (possibly recursive) loader
operation: caches and trace only grow; names being processed stay
guarded and their table entries are untouched; chunks whose resolution
has begun are never fetched again; the fetch-deduplication and
shim-shape invariants are preserved; no entry import is issued. -/
def EvolvesTo (chunks : List ManifestChunk) (st st' : LoaderState) : Prop :=
  (∃ t, st'.resolvedUrls = st.resolvedUrls ++ t) ∧
  (∃ t, st'.trace = st.trace ++ t) ∧
  (∀ g, g ∈ st.processing → g ∈ st'.processing) ∧
  (∀ g, g ∈ st.processing → st'.resolvedUrls.lookup g = st.resolvedUrls.lookup g) ∧
  (∀ g, started st g → fetchCount st' g = fetchCount st g) ∧
  (FetchInv st → FetchInv st') ∧
  (∀ u, Event.importIssued u ∈ st'.trace → Event.importIssued u ∈ st.trace) ∧
  (ShimInv chunks st → ShimInv chunks st')

/-! ## Concrete instances used by counterexamples and witnesses -/

/-- A non-entry chunk importing its sibling, for build-side instances. -/
def demoA : OutputChunk :=
  ⟨"assets/a.js", [Stmt.importNamed "x" "./b.js"], false, ["assets/b.js"], [], ["x", "default"]⟩

/-- A second non-entry chunk, unmanaged in the demo filter. -/
def demoB : OutputChunk :=
  ⟨"assets/b.js", [Stmt.other "const b = 2;"], false, [], [], ["b"]⟩

/-- The entry chunk of the demo bundle. -/
def demoEntry : OutputChunk :=
  ⟨"index-1234.js", [Stmt.importNamed "x" "./assets/a.js"], true, ["assets/a.js"], [], []⟩

/-- A demo bundle: one entry, one managed chunk, one unmanaged chunk. -/
def demoBundle : List OutputChunk := [demoEntry, demoA, demoB]

/-- Demo include filter: only `assets/a.js` is selected. -/
def demoFilter : String → Bool := fun fn => fn = "assets/a.js"

/-- A variant of the demo bundle with different bytes in the managed
chunk, for hash-sensitivity instances. -/
def demoBundle' : List OutputChunk :=
  [demoEntry, { demoA with code := [Stmt.importNamed "x" "./b.js", Stmt.other "const a = 1;"] }, demoB]

/-- Manifest entries of two mutually-importing managed chunks. -/
def chunkM : ManifestChunk := ⟨"M.js", "/M.js", "hashM", false⟩

/-- Second chunk of the mutual pair; `N.js` imports `M.js` back. -/
def chunkN : ManifestChunk := ⟨"N.js", "/N.js", "hashN", true⟩

/-- The mutual manifest map. -/
def mutualChunks : List ManifestChunk := [chunkM, chunkN]

/-- World serving the mutually-importing chunk pair from the store. -/
def mutualWorld : World where
  isCOSAvailable := true
  storeRead := fun h =>
    if h = "hashM" then .found [Stmt.importNamed "n" "./N.js"]
    else if h = "hashN" then .found [Stmt.importNamed "m" "./M.js"]
    else .notFound
  storeWrite := fun _ => .ok
  network := fun _ => none

/-- A loader state in which `M.js` is in the Resolving state. -/
def midStateM : LoaderState := ⟨[], [], ["M.js"], [], 0, []⟩

/-- Manifest entry of `P.js`, the first chunk of a second mutual pair. -/
def chunkP : ManifestChunk := ⟨"P.js", "/P.js", "hashP", false⟩

/-- Manifest entry of `Q.js`; `Q.js` imports `P.js` back. -/
def chunkQ : ManifestChunk := ⟨"Q.js", "/Q.js", "hashQ", false⟩

/-- The second mutual manifest map. -/
def pqChunks : List ManifestChunk := [chunkP, chunkQ]

/-- World serving the `P.js`/`Q.js` mutual pair from the store. -/
def pqWorld : World where
  isCOSAvailable := true
  storeRead := fun h =>
    if h = "hashP" then .found [Stmt.importNamed "q" "./Q.js"]
    else if h = "hashQ" then .found [Stmt.importNamed "p" "./P.js"]
    else .notFound
  storeWrite := fun _ => .ok
  network := fun _ => none

/-- A loader state in which `P.js` is in the Resolving state. -/
def midStateP : LoaderState := ⟨[], [], ["P.js"], [], 0, []⟩

/-- Manifest entry of the managed chunk `A7` of the A→B→C scenario. -/
def chunkA7 : ManifestChunk := ⟨"A7.js", "/assets/A7.js", "hashA7", false⟩

/-- Manifest entry of the managed chunk `B7`, which references the
unmanaged `C7.js`. -/
def chunkB7 : ManifestChunk := ⟨"B7.js", "/assets/B7.js", "hashB7", false⟩

/-- The A→B→C manifest map: `C7.js` has no entry (unmanaged). -/
def scenarioChunks : List ManifestChunk := [chunkA7, chunkB7]

/-- Code of `A7.js`: one static import of `B7.js`. -/
def codeA7 : List Stmt := [Stmt.importNamed "b" "./B7.js"]

/-- Code of `B7.js`: one static import of the unmanaged `C7.js`. -/
def codeB7 : List Stmt := [Stmt.importNamed "c" "./C7.js"]

/-- World for the scenario in which both managed chunks hit the store. -/
def scenarioStoreWorld : World where
  isCOSAvailable := true
  storeRead := fun h =>
    if h = "hashA7" then .found codeA7
    else if h = "hashB7" then .found codeB7
    else .notFound
  storeWrite := fun _ => .ok
  network := fun _ => none

/-- World for the scenario in which the store is empty and both
managed chunks come from the network. -/
def scenarioNetWorld : World where
  isCOSAvailable := true
  storeRead := fun _ => .notFound
  storeWrite := fun _ => .ok
  network := fun f =>
    if f = "/assets/A7.js" then some codeA7
    else if f = "/assets/B7.js" then some codeB7
    else none

/-- Manifest entry of a single dependency-free entry chunk. -/
def chunkE : ManifestChunk := ⟨"E.js", "/E.js", "hashE", false⟩

/-- World serving the single entry chunk from the network. -/
def entryWorld : World where
  isCOSAvailable := false
  storeRead := fun _ => .notFound
  storeWrite := fun _ => .ok
  network := fun f => if f = "/E.js" then some [Stmt.other "console.log(1);"] else none

/-! # Theorems

## Association-list helper lemmas -/

theorem lookup_append_some {β : Type} {l t : List (String × β)} {k : String} {v : β}
    (h : List.lookup k l = some v) : List.lookup k (l ++ t) = some v := by
  induction l with
  | nil => simp [List.lookup] at h
  | cons a l ih =>
    obtain ⟨k', v'⟩ := a
    rw [List.lookup_cons] at h
    rw [List.cons_append, List.lookup_cons]
    cases hbe : k == k' <;> simp only [hbe] at h ⊢
    · exact ih h
    · exact h

theorem lookup_append_none {β : Type} {l t : List (String × β)} {k : String}
    (h : List.lookup k l = none) : List.lookup k (l ++ t) = List.lookup k t := by
  induction l with
  | nil => simp
  | cons a l ih =>
    obtain ⟨k', v'⟩ := a
    rw [List.lookup_cons] at h
    rw [List.cons_append, List.lookup_cons]
    cases hbe : k == k' <;> simp only [hbe] at h ⊢
    · exact ih h
    · exact absurd h (by simp)

theorem lookup_singleton {β : Type} {k k' : String} {v : β} :
    List.lookup k [(k', v)] = if k = k' then some v else none := by
  rw [List.lookup_cons]
  by_cases h : k = k'
  · simp [h]
  · simp [h, beq_false_of_ne h]

theorem lookup_isSome_append {β : Type} {l t : List (String × β)} {k : String}
    (h : (List.lookup k l).isSome) : (List.lookup k (l ++ t)).isSome := by
  cases hl : List.lookup k l with
  | none => rw [hl] at h; simp at h
  | some v => simp [lookup_append_some hl]

theorem lookup_append_single_ne {β : Type} {l : List (String × β)} {k k' : String} {v : β}
    (h : k ≠ k') : List.lookup k (l ++ [(k', v)]) = List.lookup k l := by
  cases hl : List.lookup k l with
  | none => rw [lookup_append_none hl, lookup_singleton, if_neg h]
  | some w => exact lookup_append_some hl

theorem lookup_append_single_self {β : Type} {l : List (String × β)} {k : String} {v : β}
    (h : List.lookup k l = none) : List.lookup k (l ++ [(k, v)]) = some v := by
  rw [lookup_append_none h, lookup_singleton, if_pos rfl]

theorem lookup_append_single_cases {β : Type} {l : List (String × β)} {k k' : String}
    {v rr : β} (h : List.lookup k (l ++ [(k', v)]) = some rr) :
    List.lookup k l = some rr ∨ (k = k' ∧ rr = v) := by
  cases hl : List.lookup k l with
  | some w => left; rw [lookup_append_some hl] at h; exact h
  | none =>
    right
    rw [lookup_append_none hl, lookup_singleton] at h
    by_cases hk : k = k'
    · rw [if_pos hk] at h; exact ⟨hk, (Option.some_inj.mp h).symm⟩
    · rw [if_neg hk] at h; exact absurd h (by simp)

theorem lookup_mem {β : Type} {l : List (String × β)} {k : String} {v : β}
    (h : List.lookup k l = some v) : (k, v) ∈ l := by
  induction l with
  | nil => simp [List.lookup] at h
  | cons a l ih =>
    obtain ⟨k', v'⟩ := a
    rw [List.lookup_cons] at h
    cases hbe : k == k' <;> simp only [hbe] at h
    · exact List.mem_cons_of_mem _ (ih h)
    · obtain rfl : k = k' := by simpa using hbe
      obtain rfl : v' = v := by simpa using h
      exact List.mem_cons_self _ _

/-! ## Trace and fetch-count helper lemmas -/

theorem fetchCount_def (st : LoaderState) (g : String) :
    fetchCount st g = (st.trace.filter (isFetchOf g)).length := rfl

theorem isFetchOf_tableInsert (g fn : String) :
    isFetchOf g (Event.tableInsert fn) = false := rfl

theorem isFetchOf_importIssued (g u : String) :
    isFetchOf g (Event.importIssued u) = false := rfl

theorem filter_fetch_append (g : String) (t u : List Event) :
    ((t ++ u).filter (isFetchOf g)).length =
      (t.filter (isFetchOf g)).length + (u.filter (isFetchOf g)).length := by
  rw [List.filter_append, List.length_append]

/-! ## The `EvolvesTo` step contract -/

theorem evolvesTo_refl (chunks : List ManifestChunk) (st : LoaderState) :
    EvolvesTo chunks st st :=
  ⟨⟨[], by simp⟩, ⟨[], by simp⟩, fun _ h => h, fun _ _ => rfl, fun _ _ => rfl,
    fun h => h, fun _ h => h, fun h => h⟩

theorem EvolvesTo.started_mono {chunks : List ManifestChunk} {st st' : LoaderState}
    (h : EvolvesTo chunks st st') {g : String} (hg : started st g) : started st' g := by
  rcases hg with hp | hs
  · exact Or.inl (h.2.2.1 g hp)
  · obtain ⟨t, ht⟩ := h.1
    exact Or.inr (by rw [ht]; exact lookup_isSome_append hs)

theorem evolvesTo_trans {chunks : List ManifestChunk} {st₁ st₂ st₃ : LoaderState}
    (h₁ : EvolvesTo chunks st₁ st₂) (h₂ : EvolvesTo chunks st₂ st₃) :
    EvolvesTo chunks st₁ st₃ := by
  obtain ⟨⟨t₁, ht₁⟩, ⟨u₁, hu₁⟩, hp₁, hk₁, hf₁, hi₁, hn₁, hs₁⟩ := h₁
  obtain ⟨⟨t₂, ht₂⟩, ⟨u₂, hu₂⟩, hp₂, hk₂, hf₂, hi₂, hn₂, hs₂⟩ := h₂
  refine ⟨⟨t₁ ++ t₂, by rw [ht₂, ht₁, List.append_assoc]⟩,
    ⟨u₁ ++ u₂, by rw [hu₂, hu₁, List.append_assoc]⟩,
    fun g hg => hp₂ g (hp₁ g hg),
    fun g hg => (hk₂ g (hp₁ g hg)).trans (hk₁ g hg),
    fun g hg => ?_, fun h => hi₂ (hi₁ h), fun u hu => hn₁ u (hn₂ u hu), fun h => hs₂ (hs₁ h)⟩
  have hg₂ : started st₂ g :=
    EvolvesTo.started_mono ⟨⟨t₁, ht₁⟩, ⟨u₁, hu₁⟩, hp₁, hk₁, hf₁, hi₁, hn₁, hs₁⟩ hg
  exact (hf₂ g hg₂).trans (hf₁ g hg)

/-! ## Facts about `loadRawContent` -/

theorem loadRawContent_facts (w : World) (st : LoaderState) (c : ManifestChunk) :
    (loadRawContent w st c).2.resolvedUrls = st.resolvedUrls ∧
    (loadRawContent w st c).2.processing = st.processing ∧
    (∃ t, (loadRawContent w st c).2.trace = st.trace ++ t) ∧
    (∀ g, g ≠ c.fileName → fetchCount (loadRawContent w st c).2 g = fetchCount st g) ∧
    fetchCount (loadRawContent w st c).2 c.fileName ≤ fetchCount st c.fileName + 1 ∧
    (∀ u, Event.importIssued u ∈ (loadRawContent w st c).2.trace →
      Event.importIssued u ∈ st.trace) := by
  have hone : ∀ g, g ≠ c.fileName →
      ([Event.fetch c.fileName c.file].filter (isFetchOf g)).length = 0 := by
    intro g hg
    have hf : isFetchOf g (Event.fetch c.fileName c.file) = false := by
      simp only [isFetchOf, decide_eq_false_iff_not]
      exact fun h => hg h.symm
    simp [List.filter, hf]
  have hone₂ : ([Event.fetch c.fileName c.file].filter (isFetchOf c.fileName)).length ≤ 1 := by
    simp [List.filter, isFetchOf]
  cases hrc : List.lookup c.fileName st.rawContent with
  | some t0 =>
    have he : loadRawContent w st c = (some t0, st) := by
      simp [loadRawContent, hrc]
    rw [he]
    exact ⟨rfl, rfl, ⟨[], by simp⟩, fun g _ => rfl, Nat.le_succ _, fun u hu => hu⟩
  | none =>
    cases hgb : getBlobFromCOS w c.hash with
    | some blob =>
      have he : loadRawContent w st c =
          (some blob, { st with rawContent := st.rawContent ++ [(c.fileName, blob)] }) := by
        simp [loadRawContent, hrc, hgb]
      rw [he]
      exact ⟨rfl, rfl, ⟨[], by simp⟩, fun g _ => rfl, Nat.le_succ _, fun u hu => hu⟩
    | none =>
      have hcnt : ∀ g, g ≠ c.fileName →
          ((st.trace ++ [Event.fetch c.fileName c.file]).filter (isFetchOf g)).length =
            (st.trace.filter (isFetchOf g)).length := by
        intro g hg
        rw [filter_fetch_append, hone g hg, Nat.add_zero]
      have hcnt₂ :
          ((st.trace ++ [Event.fetch c.fileName c.file]).filter (isFetchOf c.fileName)).length ≤
            (st.trace.filter (isFetchOf c.fileName)).length + 1 := by
        rw [filter_fetch_append]
        omega
      have himp : ∀ u, Event.importIssued u ∈ st.trace ++ [Event.fetch c.fileName c.file] →
          Event.importIssued u ∈ st.trace := by
        intro u hu
        rcases List.mem_append.mp hu with h | h
        · exact h
        · simp at h
      cases hnw : w.network c.file with
      | none =>
        have he : loadRawContent w st c =
            (none, { st with trace := st.trace ++ [Event.fetch c.fileName c.file] }) := by
          simp [loadRawContent, hrc, hgb, hnw]
        rw [he]
        exact ⟨rfl, rfl, ⟨[Event.fetch c.fileName c.file], rfl⟩, fun g hg => hcnt g hg,
          hcnt₂, himp⟩
      | some blob =>
        have he : loadRawContent w st c =
            (some blob,
              { { st with trace := st.trace ++ [Event.fetch c.fileName c.file] } with
                  rawContent := st.rawContent ++ [(c.fileName, blob)] }) := by
          simp [loadRawContent, hrc, hgb, hnw]
        rw [he]
        exact ⟨rfl, rfl, ⟨[Event.fetch c.fileName c.file], rfl⟩, fun g hg => hcnt g hg,
          hcnt₂, himp⟩

/-! ## The evolution contract of the resolver -/

theorem evolves_after_load (w : World) (chunks : List ManifestChunk)
    (st : LoaderState) (c : ManifestChunk) (fn : String)
    (hfn : c.fileName = fn) (hns : ¬ started st fn) :
    EvolvesTo chunks st (loadRawContent w { st with processing := st.processing ++ [fn] } c).2 := by
  set st₁ : LoaderState := { st with processing := st.processing ++ [fn] } with hst₁
  obtain ⟨hres, hproc, ⟨t, htr⟩, hcnt, hcnt₂, himp⟩ := loadRawContent_facts w st₁ c
  have hresS : (loadRawContent w st₁ c).2.resolvedUrls = st.resolvedUrls := hres
  have hprocS : (loadRawContent w st₁ c).2.processing = st.processing ++ [fn] := hproc
  have hcntS : ∀ g, g ≠ fn → fetchCount (loadRawContent w st₁ c).2 g = fetchCount st g := by
    intro g hg
    rw [hcnt g (by rw [hfn]; exact hg)]
    rfl
  refine ⟨⟨[], by rw [hresS]; simp⟩, ⟨t, htr⟩, ?_, ?_, ?_, ?_, ?_, ?_⟩
  · intro g hg
    rw [hprocS]
    exact List.mem_append_left _ hg
  · intro g _
    rw [hresS]
  · intro g hg
    have hne : g ≠ fn := fun h => hns (h ▸ hg)
    exact hcntS g hne
  · intro hF g
    constructor
    · by_cases hg : g = fn
      · subst hg
        have h0 : fetchCount st g = 0 := (hF g).2 hns
        have := hcnt₂
        rw [hfn] at this
        calc fetchCount (loadRawContent w st₁ c).2 g ≤ fetchCount st₁ g + 1 := this
          _ = fetchCount st g + 1 := rfl
          _ = 1 := by rw [h0]
      · rw [hcntS g hg]; exact (hF g).1
    · intro hnst
      have hgmem : g ∉ st.processing ++ [fn] := by
        intro hmem
        exact hnst (Or.inl (by rw [hprocS]; exact hmem))
      have hgfn : g ≠ fn := fun h => hgmem (h ▸ List.mem_append_right _ (List.mem_singleton.mpr rfl))
      have hnst₀ : ¬ started st g := by
        intro hst
        rcases hst with hp | hs
        · exact hgmem (List.mem_append_left _ hp)
        · exact hnst (Or.inr (by rw [hresS]; exact hs))
      rw [hcntS g hgfn]
      exact (hF g).2 hnst₀
  · exact fun u hu => by
      have := himp u (by exact hu)
      exact this
  · intro hS g rr hlk
    rw [hresS] at hlk
    exact hS g rr hlk

theorem resolveDeps_step (chunks : List ManifestChunk)
    (rc : LoaderState → String → Option ResolvedUrl × LoaderState)
    (hrc : ∀ st fn, EvolvesTo chunks st (rc st fn).2) :
    ∀ (ds : List String) (p : List (String × String) × LoaderState),
      EvolvesTo chunks p.2 (resolveDeps rc ds p).2 := by
  intro ds
  induction ds with
  | nil => intro p; exact evolvesTo_refl chunks p.2
  | cons d ds ih =>
    intro p
    have h1 : EvolvesTo chunks p.2 (rc p.2 d).2 := hrc p.2 d
    rw [resolveDeps]
    cases hrd : rc p.2 d with
    | mk res st' =>
      rw [hrd] at h1
      cases res with
      | some r =>
        exact evolvesTo_trans h1 (ih (p.1 ++ [(d, r.shimUrl)], st'))
      | none =>
        exact evolvesTo_trans h1 (ih (p.1, st'))

theorem evolves_add_processing (chunks : List ManifestChunk) (st : LoaderState) (fn : String) :
    EvolvesTo chunks st { st with processing := st.processing ++ [fn] } := by
  refine ⟨⟨[], by simp⟩, ⟨[], by simp⟩, fun g hg => List.mem_append_left _ hg,
    fun g _ => rfl, fun g _ => rfl, ?_, fun u hu => hu, fun h => h⟩
  intro hF g
  refine ⟨(hF g).1, fun hnst => (hF g).2 ?_⟩
  intro hst
  rcases hst with hp | hs
  · exact hnst (Or.inl (List.mem_append_left _ hp))
  · exact hnst (Or.inr hs)

theorem evolves_finalize (chunks : List ManifestChunk) (st st₃ : LoaderState)
    (c : ManifestChunk) (fn : String) (code : List Stmt) (bu : String)
    (hns : ¬ started st fn)
    (h03 : EvolvesTo chunks st st₃)
    (hlk₃ : List.lookup fn st₃.resolvedUrls = none)
    (hfind : chunks.find? (fun ch => ch.fileName = fn) = some c) :
    EvolvesTo chunks st
      { st₃ with
        blobs := st₃.blobs ++ [(bu, code)]
        blobCounter := st₃.blobCounter + 1
        resolvedUrls := st₃.resolvedUrls ++
          [(fn, ⟨bu, "data:text/javascript;base64," ++ btoa (buildShim bu c.hasDefault)⟩)]
        processing := st₃.processing.erase fn
        trace := st₃.trace ++ [Event.tableInsert fn] } ∧
    List.lookup fn
      ({ st₃ with
        blobs := st₃.blobs ++ [(bu, code)]
        blobCounter := st₃.blobCounter + 1
        resolvedUrls := st₃.resolvedUrls ++
          [(fn, ⟨bu, "data:text/javascript;base64," ++ btoa (buildShim bu c.hasDefault)⟩)]
        processing := st₃.processing.erase fn
        trace := st₃.trace ++ [Event.tableInsert fn] } : LoaderState).resolvedUrls =
      some ⟨bu, "data:text/javascript;base64," ++ btoa (buildShim bu c.hasDefault)⟩ := by
  have hne : ∀ g, started st g → g ≠ fn := fun g hg h => hns (h ▸ hg)
  have hnefn : ∀ g, g ∈ st.processing → g ≠ fn := fun g hg => hne g (Or.inl hg)
  have hcF : ∀ g,
      ((st₃.trace ++ [Event.tableInsert fn]).filter (isFetchOf g)).length =
        fetchCount st₃ g := by
    intro g
    rw [filter_fetch_append]
    simp [isFetchOf, fetchCount]
  have hlkF : List.lookup fn (st₃.resolvedUrls ++
      [(fn, (⟨bu, "data:text/javascript;base64," ++ btoa (buildShim bu c.hasDefault)⟩ :
        ResolvedUrl))]) =
      some ⟨bu, "data:text/javascript;base64," ++ btoa (buildShim bu c.hasDefault)⟩ :=
    lookup_append_single_self hlk₃
  refine ⟨⟨?_, ?_, ?_, ?_, ?_, ?_, ?_, ?_⟩, hlkF⟩
  · obtain ⟨t, ht⟩ := h03.1
    exact ⟨t ++ [(fn, _)], by rw [ht, List.append_assoc]⟩
  · obtain ⟨u, hu⟩ := h03.2.1
    exact ⟨u ++ [Event.tableInsert fn], by rw [hu, List.append_assoc]⟩
  · intro g hg
    exact (List.mem_erase_of_ne (hnefn g hg)).mpr (h03.2.2.1 g hg)
  · intro g hg
    show List.lookup g (st₃.resolvedUrls ++ [(fn, _)]) = _
    rw [lookup_append_single_ne (hnefn g hg)]
    exact h03.2.2.2.1 g hg
  · intro g hg
    show ((st₃.trace ++ [Event.tableInsert fn]).filter (isFetchOf g)).length = _
    rw [hcF g]
    exact h03.2.2.2.2.1 g hg
  · intro hF
    have hF₃ := h03.2.2.2.2.2.1 hF
    intro g
    constructor
    · show ((st₃.trace ++ [Event.tableInsert fn]).filter (isFetchOf g)).length ≤ 1
      rw [hcF g]
      exact (hF₃ g).1
    · intro hnst
      show ((st₃.trace ++ [Event.tableInsert fn]).filter (isFetchOf g)).length = 0
      rw [hcF g]
      refine (hF₃ g).2 ?_
      intro hst₃
      apply hnst
      rcases hst₃ with hpp | hss
      · by_cases hgfn : g = fn
        · subst hgfn
          refine Or.inr ?_
          show (List.lookup g (st₃.resolvedUrls ++ [(g, _)])).isSome
          rw [lookup_append_single_self hlk₃]
          rfl
        · exact Or.inl ((List.mem_erase_of_ne hgfn).mpr hpp)
      · refine Or.inr ?_
        show (List.lookup g (st₃.resolvedUrls ++ [(fn, _)])).isSome
        exact lookup_isSome_append hss
  · intro u hu
    rcases List.mem_append.mp hu with h | h
    · exact h03.2.2.2.2.2.2.1 u h
    · simp at h
  · intro hS
    have hS₃ := h03.2.2.2.2.2.2.2 hS
    intro g rr hlkg
    rcases lookup_append_single_cases hlkg with hin | ⟨hgfn, hrr⟩
    · exact hS₃ g rr hin
    · subst hgfn
      exact ⟨c, bu, hfind, by rw [hrr]⟩

theorem resolveChunk_step (w : World) (chunks : List ManifestChunk) :
    ∀ (fuel : Nat) (st : LoaderState) (fn : String),
      EvolvesTo chunks st (resolveChunk w chunks fuel st fn).2 ∧
      (∀ r, (resolveChunk w chunks fuel st fn).1 = some r →
        List.lookup fn (resolveChunk w chunks fuel st fn).2.resolvedUrls = some r) := by
  intro fuel
  induction fuel with
  | zero =>
    intro st fn
    exact ⟨evolvesTo_refl chunks st, fun r hr => by simp [resolveChunk] at hr⟩
  | succ fuel ih =>
    intro st fn
    cases hlk : List.lookup fn st.resolvedUrls with
    | some r0 =>
      have he : resolveChunk w chunks (fuel + 1) st fn = (some r0, st) := by
        simp [resolveChunk, hlk]
      rw [he]
      exact ⟨evolvesTo_refl chunks st, fun r hr => hlk.trans hr⟩
    | none =>
      by_cases hp : fn ∈ st.processing
      · have he : resolveChunk w chunks (fuel + 1) st fn = (none, st) := by
          simp [resolveChunk, hlk, hp]
        rw [he]
        exact ⟨evolvesTo_refl chunks st, fun r hr => by simp at hr⟩
      · have hns : ¬ started st fn := by
          rintro (h | h)
          · exact hp h
          · rw [hlk] at h; simp at h
        cases hfind : chunks.find? (fun ch => ch.fileName = fn) with
        | none =>
          have he : resolveChunk w chunks (fuel + 1) st fn =
              (none, { st with processing := st.processing ++ [fn] }) := by
            simp [resolveChunk, hlk, hp, hfind]
          rw [he]
          exact ⟨evolves_add_processing chunks st fn, fun r hr => by simp at hr⟩
        | some c =>
          have hcfn : c.fileName = fn := by
            have := List.find?_some hfind
            simpa using this
          cases hload : loadRawContent w { st with processing := st.processing ++ [fn] } c with
          | mk res st₂ =>
            have h02all := loadRawContent_facts w { st with processing := st.processing ++ [fn] } c
            rw [hload] at h02all
            obtain ⟨hres₂, hproc₂, _, _, _, _⟩ := h02all
            have h02 : EvolvesTo chunks st st₂ := by
              have := evolves_after_load w chunks st c fn hcfn hns
              rw [hload] at this
              exact this
            cases res with
            | none =>
              have he : resolveChunk w chunks (fuel + 1) st fn = (none, st₂) := by
                simp [resolveChunk, hlk, hp, hfind, hload]
              rw [he]
              exact ⟨h02, fun r hr => by simp at hr⟩
            | some code₀ =>
              have hdeps : ∀ st' fn',
                  EvolvesTo chunks st' (resolveChunk w chunks fuel st' fn').2 :=
                fun st' fn' => (ih st' fn').1
              have h23 : EvolvesTo chunks st₂
                  (resolveDeps (resolveChunk w chunks fuel) (depsOf code₀) ([], st₂)).2 :=
                resolveDeps_step chunks _ hdeps (depsOf code₀) ([], st₂)
              have h03 : EvolvesTo chunks st
                  (resolveDeps (resolveChunk w chunks fuel) (depsOf code₀) ([], st₂)).2 :=
                evolvesTo_trans h02 h23
              have hfnp₂ : fn ∈ st₂.processing := by
                rw [hproc₂]
                exact List.mem_append_right _ (List.mem_singleton.mpr rfl)
              have hlk₃ : List.lookup fn
                  (resolveDeps (resolveChunk w chunks fuel) (depsOf code₀) ([], st₂)).2.resolvedUrls =
                  none := by
                rw [h23.2.2.2.1 fn hfnp₂, hres₂]
                exact hlk
              have hfin := evolves_finalize chunks st
                (resolveDeps (resolveChunk w chunks fuel) (depsOf code₀) ([], st₂)).2 c fn
                ((resolveDeps (resolveChunk w chunks fuel) (depsOf code₀) ([], st₂)).1.foldl
                  (fun cd pr => applyReplacement pr.1 pr.2 cd) code₀)
                ("blob:cos/" ++ toString
                  (resolveDeps (resolveChunk w chunks fuel) (depsOf code₀) ([], st₂)).2.blobCounter)
                hns h03 hlk₃ hfind
              have he : resolveChunk w chunks (fuel + 1) st fn =
                  (some ⟨"blob:cos/" ++ toString
                      (resolveDeps (resolveChunk w chunks fuel) (depsOf code₀) ([], st₂)).2.blobCounter,
                    "data:text/javascript;base64," ++ btoa (buildShim
                      ("blob:cos/" ++ toString
                        (resolveDeps (resolveChunk w chunks fuel) (depsOf code₀) ([], st₂)).2.blobCounter)
                      c.hasDefault)⟩,
                  { (resolveDeps (resolveChunk w chunks fuel) (depsOf code₀) ([], st₂)).2 with
                    blobs := (resolveDeps (resolveChunk w chunks fuel) (depsOf code₀) ([], st₂)).2.blobs ++
                      [("blob:cos/" ++ toString
                          (resolveDeps (resolveChunk w chunks fuel) (depsOf code₀) ([], st₂)).2.blobCounter,
                        (resolveDeps (resolveChunk w chunks fuel) (depsOf code₀) ([], st₂)).1.foldl
                          (fun cd pr => applyReplacement pr.1 pr.2 cd) code₀)]
                    blobCounter :=
                      (resolveDeps (resolveChunk w chunks fuel) (depsOf code₀) ([], st₂)).2.blobCounter + 1
                    resolvedUrls :=
                      (resolveDeps (resolveChunk w chunks fuel) (depsOf code₀) ([], st₂)).2.resolvedUrls ++
                      [(fn, ⟨"blob:cos/" ++ toString
                          (resolveDeps (resolveChunk w chunks fuel) (depsOf code₀) ([], st₂)).2.blobCounter,
                        "data:text/javascript;base64," ++ btoa (buildShim
                          ("blob:cos/" ++ toString
                            (resolveDeps (resolveChunk w chunks fuel) (depsOf code₀) ([], st₂)).2.blobCounter)
                          c.hasDefault)⟩)]
                    processing :=
                      (resolveDeps (resolveChunk w chunks fuel) (depsOf code₀) ([], st₂)).2.processing.erase fn
                    trace :=
                      (resolveDeps (resolveChunk w chunks fuel) (depsOf code₀) ([], st₂)).2.trace ++
                      [Event.tableInsert fn] }) := by
                simp only [resolveChunk, hlk, hp, hfind, hload]
                rfl
              rw [he]
              refine ⟨hfin.1, fun r hr => ?_⟩
              obtain rfl := Option.some_inj.mp hr
              exact hfin.2

/-! ## Derived runtime facts -/

theorem fetchInv_init : FetchInv LoaderState.init := by
  intro g
  constructor
  · show (List.filter (isFetchOf g) []).length ≤ 1
    simp
  · intro _
    show (List.filter (isFetchOf g) []).length = 0
    simp

theorem reentrant_none (w : World) (chunks : List ManifestChunk) (fuel : Nat)
    (st : LoaderState) (fn : String)
    (hlk : List.lookup fn st.resolvedUrls = none) (hp : fn ∈ st.processing) :
    resolveChunk w chunks fuel st fn = (none, st) := by
  cases fuel with
  | zero => simp [resolveChunk]
  | succ fuel => simp [resolveChunk, hlk, hp]

theorem resolve_no_import_event (w : World) (chunks : List ManifestChunk)
    (fuel : Nat) (fn u : String) :
    Event.importIssued u ∈ (resolveChunk w chunks fuel LoaderState.init fn).2.trace → False := by
  intro h
  have := (resolveChunk_step w chunks fuel LoaderState.init fn).1.2.2.2.2.2.2.1 u h
  simp [LoaderState.init] at this

/-! ## Claim C1 -/

/-- Claim C1, as stated, is false: when an identifier is in the
Resolving state (the `processing` cycle guard), a re-entrant
`resolveChunk` call does not return a lazy alias — it returns `null`
with the state untouched (`src/loader.js` lines 86-91), and in the
mutual-reference scenario the re-entrant reference is left
unsubstituted in the dependent chunk's blob, so the cyclic chunk
cannot observe the other's exports through any alias.  Concretely:
with `M.js` Resolving, re-resolving `M.js` yields `none` and no state
change, and after resolving the mutual pair from scratch, `N.js`'s
blob still contains the raw `./M.js` specifier. -/
theorem C1_no_lazy_alias_counterexample :
    (resolveChunk mutualWorld mutualChunks 5 midStateM "M.js").1 = none ∧
    (resolveChunk mutualWorld mutualChunks 5 midStateM "M.js").2 = midStateM ∧
    List.lookup "blob:cos/0"
      (resolveChunk mutualWorld mutualChunks 5 LoaderState.init "M.js").2.blobs =
      some [Stmt.importNamed "m" "./M.js"] := by
  refine ⟨?_, ?_, ?_⟩ <;> decide

/-- Claim C1 (amended): a re-entrant resolution of an identifier in
the Resolving state returns `null` immediately (no blocking, no lazy
alias).  Two mutually-referencing chunks both still terminate and
both obtain Resolved table entries, but the re-entrant reference is
left unsubstituted in the dependent's materialized code, so the cycle
participant cannot observe the other's exports through the
resolution. -/
theorem C1_cycle_guard_returns_null :
    (∀ (w : World) (chunks : List ManifestChunk) (fuel : Nat) (st : LoaderState)
      (fn : String), List.lookup fn st.resolvedUrls = none → fn ∈ st.processing →
      resolveChunk w chunks fuel st fn = (none, st)) ∧
    ((List.lookup "M.js"
      (resolveChunk mutualWorld mutualChunks 5 LoaderState.init "M.js").2.resolvedUrls).isSome
      = true ∧
     (List.lookup "N.js"
      (resolveChunk mutualWorld mutualChunks 5 LoaderState.init "M.js").2.resolvedUrls).isSome
      = true ∧
     List.lookup "blob:cos/0"
      (resolveChunk mutualWorld mutualChunks 5 LoaderState.init "M.js").2.blobs =
      some [Stmt.importNamed "m" "./M.js"]) := by
  refine ⟨fun w chunks fuel st fn hlk hp => reentrant_none w chunks fuel st fn hlk hp, ?_, ?_, ?_⟩
  · decide
  · decide
  · decide

/-- Witness for C1: the general re-entrant-null statement applied at a
concrete Resolving state. -/
theorem C1_cycle_guard_returns_null_witness :
    resolveChunk mutualWorld mutualChunks 3 midStateM "M.js" = (none, midStateM) :=
  C1_cycle_guard_returns_null.1 mutualWorld mutualChunks 3 midStateM "M.js"
    (by decide) (by decide)

/-! ## Claim C3 -/

/-- Claim C3, as stated, is false in its shared-future part: a second
request for an identifier already in the Resolving state does not
observe the same in-progress resolution (there is no shared promise in
`src/loader.js`) — it receives `null`, while the resolution that every
later requester observes is a concrete entry.  Concretely, with
`P.js` Resolving, re-requesting `P.js` yields `none`, although
resolving `P.js` to completion yields a blob/shim pair. -/
theorem C3_no_shared_future_counterexample :
    (resolveChunk pqWorld pqChunks 5 midStateP "P.js").1 = none ∧
    (resolveChunk pqWorld pqChunks 5 LoaderState.init "P.js").1 =
      some ⟨"blob:cos/1",
        "data:text/javascript;base64,ZXhwb3J0ICogZnJvbSAiYmxvYjpjb3MvMSI7"⟩ := by
  constructor <;> decide

/-- Claim C3 (amended): within one page load at most one network fetch
is issued per distinct virtual identifier, both for any resolution
started from the initial state and for the whole bootstrap; and a
re-entrant request for an identifier still being resolved receives
`null` (it does not trigger a second fetch, but it does not observe
the in-progress resolution either). -/
theorem C3_at_most_one_fetch :
    (∀ (w : World) (chunks : List ManifestChunk) (fuel : Nat) (fn g : String),
      fetchCount (resolveChunk w chunks fuel LoaderState.init fn).2 g ≤ 1) ∧
    (∀ (w : World) (chunks : List ManifestChunk) (entry : String) (fuel : Nat) (g : String),
      fetchCount (bootstrap w chunks entry fuel).2 g ≤ 1) ∧
    (∀ (w : World) (chunks : List ManifestChunk) (fuel : Nat) (st : LoaderState)
      (fn : String), List.lookup fn st.resolvedUrls = none → fn ∈ st.processing →
      resolveChunk w chunks fuel st fn = (none, st)) := by
  have hres : ∀ (w : World) (chunks : List ManifestChunk) (fuel : Nat) (fn g : String),
      fetchCount (resolveChunk w chunks fuel LoaderState.init fn).2 g ≤ 1 := by
    intro w chunks fuel fn g
    have h := (resolveChunk_step w chunks fuel LoaderState.init fn).1
    exact ((h.2.2.2.2.2.1 fetchInv_init) g).1
  refine ⟨hres, ?_, fun w chunks fuel st fn hlk hp => reentrant_none w chunks fuel st fn hlk hp⟩
  intro w chunks entry fuel g
  have hb := hres w chunks fuel entry g
  cases hrc : resolveChunk w chunks fuel LoaderState.init entry with
  | mk res st' =>
    rw [hrc] at hb
    cases res with
    | none =>
      show fetchCount (bootstrap w chunks entry fuel).2 g ≤ 1
      rw [bootstrap, hrc]
      exact hb
    | some r =>
      show fetchCount (bootstrap w chunks entry fuel).2 g ≤ 1
      rw [bootstrap, hrc]
      show ((st'.trace ++ [Event.importIssued r.shimUrl]).filter (isFetchOf g)).length ≤ 1
      rw [filter_fetch_append]
      have : ([Event.importIssued r.shimUrl].filter (isFetchOf g)).length = 0 := by
        simp [isFetchOf]
      rw [this, Nat.add_zero]
      exact hb

/-- Witness for C3: the deduplication bound and the re-entrant-null
statement applied at concrete inputs. -/
theorem C3_at_most_one_fetch_witness :
    fetchCount (resolveChunk scenarioNetWorld scenarioChunks 5 LoaderState.init "A7.js").2
      "B7.js" ≤ 1 ∧
    resolveChunk pqWorld pqChunks 4 midStateP "P.js" = (none, midStateP) :=
  ⟨C3_at_most_one_fetch.1 scenarioNetWorld scenarioChunks 5 "A7.js" "B7.js",
   C3_at_most_one_fetch.2.2 pqWorld pqChunks 4 midStateP "P.js" (by decide) (by decide)⟩

/-! ## Claim C5 -/

/-- Claim C5, as stated, is false in its import-specifier part: the
bootstrap does not import the entry module by its virtual identifier —
it imports the data-URL shim obtained from resolving that identifier
(`await import(res.shimUrl)`, `src/loader.js` line 160).  Concretely,
the specifier the entry import is issued with is a base64 data URL,
not `E.js` and not `./E.js`. -/
theorem C5_import_specifier_counterexample :
    (bootstrap entryWorld [chunkE] "E.js" 5).1 =
      some "data:text/javascript;base64,ZXhwb3J0ICogZnJvbSAiYmxvYjpjb3MvMCI7" ∧
    (bootstrap entryWorld [chunkE] "E.js" 5).1 ≠ some "E.js" ∧
    (bootstrap entryWorld [chunkE] "E.js" 5).1 ≠ some "./E.js" := by
  refine ⟨?_, ?_, ?_⟩ <;> decide

/-- Claim C5 (amended): whenever the bootstrap issues the entry
import, the resolution table already holds the entry's resolution
(whose shim URL is exactly the imported specifier), and the import
event is the last event of the trace — every resolution-table insert
happens strictly before it, so no lookup at entry-import time can
observe a partially populated table.  The import uses the resolved
shim URL, not the virtual identifier itself. -/
theorem C5_table_before_import :
    ∀ (w : World) (chunks : List ManifestChunk) (entryFileName : String) (fuel : Nat)
      (u : String) (st : LoaderState),
      bootstrap w chunks entryFileName fuel = (some u, st) →
      (∃ r : ResolvedUrl, List.lookup entryFileName st.resolvedUrls = some r ∧
        u = r.shimUrl) ∧
      (∃ pre, st.trace = pre ++ [Event.importIssued u] ∧
        ∀ v, Event.importIssued v ∉ pre) := by
  intro w chunks entryFileName fuel u st hb
  rw [bootstrap] at hb
  cases hrc : resolveChunk w chunks fuel LoaderState.init entryFileName with
  | mk res st' =>
    rw [hrc] at hb
    cases res with
    | none => simp at hb
    | some r =>
      simp only [Prod.mk.injEq, Option.some_inj] at hb
      obtain ⟨hu, hst⟩ := hb
      have hlk : List.lookup entryFileName st'.resolvedUrls = some r := by
        have := (resolveChunk_step w chunks fuel LoaderState.init entryFileName).2 r
        rw [hrc] at this
        exact this rfl
      constructor
      · refine ⟨r, ?_, hu.symm⟩
        rw [← hst]
        exact hlk
      · refine ⟨st'.trace, ?_, ?_⟩
        · rw [← hst, hu]
        · intro v hv
          have := resolve_no_import_event w chunks fuel entryFileName v
          rw [hrc] at this
          exact this hv

/-- Witness for C5: applied to the concrete single-entry world. -/
theorem C5_table_before_import_witness :
    (∃ r : ResolvedUrl,
      List.lookup "E.js" (bootstrap entryWorld [chunkE] "E.js" 5).2.resolvedUrls = some r ∧
      "data:text/javascript;base64,ZXhwb3J0ICogZnJvbSAiYmxvYjpjb3MvMCI7" = r.shimUrl) ∧
    (∃ pre, (bootstrap entryWorld [chunkE] "E.js" 5).2.trace =
      pre ++ [Event.importIssued
        "data:text/javascript;base64,ZXhwb3J0ICogZnJvbSAiYmxvYjpjb3MvMCI7"] ∧
      ∀ v, Event.importIssued v ∉ pre) :=
  C5_table_before_import entryWorld [chunkE] "E.js" 5
    "data:text/javascript;base64,ZXhwb3J0ICogZnJvbSAiYmxvYjpjb3MvMCI7"
    (bootstrap entryWorld [chunkE] "E.js" 5).2 (by decide)

/-! ## Claim C6 -/

/-- Claim C6 (confirmed): the runtime cache resolver absorbs all
store-related failures locally.  A not-found store read and any other
store-read failure both yield `null` from `getBlobFromCOS` and hence
fall through to the network fetch inside `loadRawContent`; and the
result of `loadRawContent` is identical for any two store-write
outcome functions, so a failed best-effort write-back after a
successful fetch is never propagated to the caller. -/
theorem C6_store_failures_absorbed :
    (∀ (w : World) (hash : String), w.storeRead hash = StoreRead.notFound →
      getBlobFromCOS w hash = none) ∧
    (∀ (w : World) (hash e : String), w.storeRead hash = StoreRead.failure e →
      getBlobFromCOS w hash = none) ∧
    (∀ (w : World) (st : LoaderState) (c : ManifestChunk) (blob : List Stmt),
      List.lookup c.fileName st.rawContent = none → getBlobFromCOS w c.hash = none →
      w.network c.file = some blob →
      loadRawContent w st c = (some blob,
        { st with
          rawContent := st.rawContent ++ [(c.fileName, blob)]
          trace := st.trace ++ [Event.fetch c.fileName c.file] })) ∧
    (∀ (w : World) (st : LoaderState) (c : ManifestChunk),
      List.lookup c.fileName st.rawContent = none → getBlobFromCOS w c.hash = none →
      w.network c.file = none →
      loadRawContent w st c =
        (none, { st with trace := st.trace ++ [Event.fetch c.fileName c.file] })) ∧
    (∀ (w : World) (sw₁ sw₂ : String → StoreWrite) (st : LoaderState) (c : ManifestChunk),
      loadRawContent { w with storeWrite := sw₁ } st c =
        loadRawContent { w with storeWrite := sw₂ } st c) := by
  refine ⟨?_, ?_, ?_, ?_, ?_⟩
  · intro w hash h
    unfold getBlobFromCOS
    cases w.isCOSAvailable <;> simp [h]
  · intro w hash e h
    unfold getBlobFromCOS
    cases w.isCOSAvailable <;> simp [h]
  · intro w st c blob h1 h2 h3
    simp [loadRawContent, h1, h2, h3]
  · intro w st c h1 h2 h3
    simp [loadRawContent, h1, h2, h3]
  · intro w sw₁ sw₂ st c
    rfl

/-- Witness for C6: each failure-absorption statement applied at a
concrete world, chunk and state. -/
theorem C6_store_failures_absorbed_witness :
    getBlobFromCOS scenarioNetWorld "hashA7" = none ∧
    getBlobFromCOS ⟨true, fun _ => StoreRead.failure "SecurityError",
      fun _ => StoreWrite.ok, fun _ => none⟩ "h0" = none ∧
    loadRawContent entryWorld LoaderState.init chunkE = (some [Stmt.other "console.log(1);"],
      { LoaderState.init with
        rawContent := LoaderState.init.rawContent ++ [("E.js", [Stmt.other "console.log(1);"])]
        trace := LoaderState.init.trace ++ [Event.fetch "E.js" "/E.js"] }) ∧
    loadRawContent entryWorld midStateM chunkM =
      (none, { midStateM with trace := midStateM.trace ++ [Event.fetch "M.js" "/M.js"] }) ∧
    loadRawContent { entryWorld with storeWrite := fun _ => StoreWrite.failure "QuotaExceededError" }
        LoaderState.init chunkE =
      loadRawContent { entryWorld with storeWrite := fun _ => StoreWrite.ok }
        LoaderState.init chunkE :=
  ⟨C6_store_failures_absorbed.1 scenarioNetWorld "hashA7" (by decide),
   C6_store_failures_absorbed.2.1 _ "h0" "SecurityError" (by decide),
   C6_store_failures_absorbed.2.2.1 entryWorld LoaderState.init chunkE _
     (by decide) (by decide) (by decide),
   C6_store_failures_absorbed.2.2.2.1 entryWorld midStateM chunkM
     (by decide) (by decide) (by decide),
   C6_store_failures_absorbed.2.2.2.2 entryWorld _ _ LoaderState.init chunkE⟩

/-! ## Build-side helper lemmas -/

theorem foldl_append_shift {α β : Type} (f : α → List β) :
    ∀ (l : List α) (m : List β),
      l.foldl (fun acc c => acc ++ f c) m = m ++ l.foldl (fun acc c => acc ++ f c) [] := by
  intro l
  induction l with
  | nil => intro m; simp
  | cons a l ih =>
    intro m
    rw [List.foldl_cons, List.foldl_cons, ih (m ++ f a), ih ([] ++ f a)]
    simp

theorem buildManifest_eq (H : String → String) (base : String)
    (needed managed : List String) (rewritten : List OutputChunk) :
    buildManifest H base needed managed rewritten =
      rewritten.foldl (fun m c => m ++ manifestEntryFor H base needed managed c) [] := by
  unfold buildManifest
  apply List.foldl_ext
  intro m c _
  unfold manifestEntryFor
  by_cases h1 : c.fileName ∈ needed
  · by_cases h2 : c.fileName ∈ managed
    · simp [h1, h2]
    · simp [h1, h2]
  · simp [h1]

theorem buildManifest_cons (H : String → String) (base : String)
    (needed managed : List String) (a : OutputChunk) (l : List OutputChunk) :
    buildManifest H base needed managed (a :: l) =
      manifestEntryFor H base needed managed a ++ buildManifest H base needed managed l := by
  rw [buildManifest_eq, buildManifest_eq, List.foldl_cons,
    foldl_append_shift (manifestEntryFor H base needed managed) l]
  simp

theorem buildManifest_mem (H : String → String) (base : String)
    (needed managed : List String) :
    ∀ (rewritten : List OutputChunk) (kv : String × ManifestRecord),
      kv ∈ buildManifest H base needed managed rewritten →
      ∃ c, c ∈ rewritten ∧ kv.1 = c.fileName ∧ c.fileName ∈ needed ∧
        ((c.fileName ∈ managed ∧ kv.2 = .managedRec c.fileName (base ++ c.fileName)
            (H (render c.code)) (globalVarFor H c.fileName) (c.exports.contains "default")) ∨
         (c.fileName ∉ managed ∧ kv.2 = .unmanagedRec c.fileName (base ++ c.fileName))) := by
  intro rewritten
  induction rewritten with
  | nil =>
    intro kv hkv
    simp [buildManifest] at hkv
  | cons a l ih =>
    intro kv hkv
    rw [buildManifest_cons] at hkv
    rcases List.mem_append.mp hkv with h | h
    · unfold manifestEntryFor at h
      by_cases h1 : a.fileName ∈ needed
      · by_cases h2 : a.fileName ∈ managed
        · rw [if_pos h1, if_pos h2] at h
          simp only [List.mem_singleton] at h
          subst h
          exact ⟨a, List.mem_cons_self _ _, rfl, h1, Or.inl ⟨h2, rfl⟩⟩
        · rw [if_pos h1, if_neg h2] at h
          simp only [List.mem_singleton] at h
          subst h
          exact ⟨a, List.mem_cons_self _ _, rfl, h1, Or.inr ⟨h2, rfl⟩⟩
      · rw [if_neg h1] at h
        simp at h
    · obtain ⟨c, hc, rest⟩ := ih kv h
      exact ⟨c, List.mem_cons_of_mem _ hc, rest⟩

theorem lookup_manifestEntryFor_ne (H : String → String) (base : String)
    (needed managed : List String) (a : OutputChunk) (k : String)
    (hk : k ≠ a.fileName) :
    List.lookup k (manifestEntryFor H base needed managed a) = none := by
  unfold manifestEntryFor
  by_cases h1 : a.fileName ∈ needed
  · by_cases h2 : a.fileName ∈ managed
    · rw [if_pos h1, if_pos h2, lookup_singleton, if_neg hk]
    · rw [if_pos h1, if_neg h2, lookup_singleton, if_neg hk]
  · rw [if_neg h1]
    rfl

theorem buildManifest_lookup (H : String → String) (base : String)
    (needed managed : List String) :
    ∀ (rewritten : List OutputChunk) (c : OutputChunk),
      (rewritten.map (·.fileName)).Nodup → c ∈ rewritten →
      c.fileName ∈ needed → c.fileName ∈ managed →
      List.lookup c.fileName (buildManifest H base needed managed rewritten) =
        some (.managedRec c.fileName (base ++ c.fileName) (H (render c.code))
          (globalVarFor H c.fileName) (c.exports.contains "default")) := by
  intro rewritten
  induction rewritten with
  | nil => intro c _ hc; simp at hc
  | cons a l ih =>
    intro c hnd hc hneed hman
    rw [List.map_cons, List.nodup_cons] at hnd
    obtain ⟨hna, hnd'⟩ := hnd
    rw [buildManifest_cons]
    rcases List.mem_cons.mp hc with rfl | hcl
    · unfold manifestEntryFor
      rw [if_pos hneed, if_pos hman]
      rw [List.singleton_append, List.lookup_cons]
      simp
    · have hne : c.fileName ≠ a.fileName := by
        intro h
        exact hna (h ▸ List.mem_map_of_mem _ hcl)
      rw [lookup_append_none (lookup_manifestEntryFor_ne H base needed managed a _ hne)]
      exact ih c hnd' hcl hneed hman

theorem lookup_objInsert_self (k : String) (v : ManifestRecord) :
    ∀ (m : List (String × ManifestRecord)), List.lookup k (objInsert k v m) = some v := by
  intro m
  induction m with
  | nil =>
    rw [objInsert, List.lookup_cons]
    simp
  | cons a m ih =>
    obtain ⟨k', v'⟩ := a
    rw [objInsert]
    by_cases h : k' = k
    · rw [if_pos h, List.lookup_cons]
      simp [h]
    · rw [if_neg h, List.lookup_cons]
      have : (k == k') = false := by
        simp only [beq_eq_false_iff_ne, ne_eq]
        exact fun hk => h hk.symm
      simp only [this]
      exact ih

theorem lookup_objInsert_ne (k k' : String) (v : ManifestRecord) (h : k' ≠ k) :
    ∀ (m : List (String × ManifestRecord)),
      List.lookup k' (objInsert k v m) = List.lookup k' m := by
  intro m
  induction m with
  | nil =>
    rw [objInsert, List.lookup_cons]
    simp [beq_false_of_ne h, List.lookup]
  | cons a m ih =>
    obtain ⟨k₀, v₀⟩ := a
    rw [objInsert]
    by_cases hk : k₀ = k
    · rw [if_pos hk, List.lookup_cons, List.lookup_cons]
      have : (k' == k₀) = false := beq_false_of_ne (hk ▸ h)
      simp only [this]
    · rw [if_neg hk, List.lookup_cons, List.lookup_cons]
      cases hbe : k' == k₀
      · simp only []
        exact ih
      · simp only []

theorem objInsert_mem (k : String) (v : ManifestRecord) :
    ∀ (m : List (String × ManifestRecord)) (kv : String × ManifestRecord),
      kv ∈ objInsert k v m → kv = (k, v) ∨ kv ∈ m := by
  intro m
  induction m with
  | nil =>
    intro kv hkv
    rw [objInsert] at hkv
    exact Or.inl (List.mem_singleton.mp hkv)
  | cons a m ih =>
    intro kv hkv
    obtain ⟨k₀, v₀⟩ := a
    rw [objInsert] at hkv
    by_cases hk : k₀ = k
    · rw [if_pos hk] at hkv
      rcases List.mem_cons.mp hkv with h | h
      · subst hk
        exact Or.inl (by rw [h])
      · exact Or.inr (List.mem_cons_of_mem _ h)
    · rw [if_neg hk] at hkv
      rcases List.mem_cons.mp hkv with h | h
      · exact Or.inr (by rw [h]; exact List.mem_cons_self _ _)
      · rcases ih kv h with h' | h'
        · exact Or.inl h'
        · exact Or.inr (List.mem_cons_of_mem _ h')

theorem rewriteChunk_fileName (managed depNames : List String) :
    ∀ (c : OutputChunk), (rewriteChunk managed depNames c).fileName = c.fileName := by
  induction depNames with
  | nil => intro c; rfl
  | cons n ns ih =>
    intro c
    unfold rewriteChunk at *
    rw [List.foldl_cons]
    by_cases h : n ∈ managed ∨ c.fileName ∈ managed
    · rw [if_pos h, ih]
    · rw [if_neg h, ih]

theorem rewriteBundle_names (managed : List String) (bundle : List OutputChunk) :
    (rewriteBundle managed bundle).map (·.fileName) = bundle.map (·.fileName) := by
  unfold rewriteBundle
  rw [List.map_map]
  apply List.map_congr_left
  intro c _
  exact rewriteChunk_fileName managed (bundle.map (·.fileName)) c

theorem find?_fileName_eq :
    ∀ (l : List OutputChunk) (c : OutputChunk),
      (l.map (·.fileName)).Nodup → c ∈ l →
      l.find? (fun ch => ch.fileName = c.fileName) = some c := by
  intro l
  induction l with
  | nil => intro c _ hc; simp at hc
  | cons a l ih =>
    intro c hnd hc
    rw [List.map_cons, List.nodup_cons] at hnd
    obtain ⟨hna, hnd'⟩ := hnd
    rcases List.mem_cons.mp hc with rfl | hcl
    · exact List.find?_cons_of_pos _ (by simp)
    · have hne : a.fileName ≠ c.fileName := by
        intro h
        exact hna (h ▸ List.mem_map_of_mem _ hcl)
      rw [List.find?_cons_of_neg _ (by simp [hne])]
      exact ih c hnd' hcl

theorem generateBundle_eq (H : String → String) (filter : String → Bool)
    (baseCfg : String) (bundle : List OutputChunk) (mc : OutputChunk)
    (hmc : mainChunkOf bundle = some mc) :
    generateBundle H filter baseCfg bundle = some
      ⟨rewriteBundle (managedNames filter bundle) bundle,
        objInsert "index" (.indexRec (normalizeBase baseCfg ++ mc.fileName))
          (buildManifest H (normalizeBase baseCfg)
            (chunksNeeded bundle (managedNames filter bundle))
            (managedNames filter bundle)
            (rewriteBundle (managedNames filter bundle) bundle))⟩ := by
  rw [generateBundle, hmc]

theorem manifest_managed_spec (H : String → String) (filter : String → Bool)
    (baseCfg : String) (bundle : List OutputChunk) (out : BuildOutput)
    (hout : generateBundle H filter baseCfg bundle = some out)
    (fn fn' f h g : String) (d : Bool)
    (hlk : List.lookup fn out.manifest = some (.managedRec fn' f h g d)) :
    fn' = fn ∧ fn ∈ managedNames filter bundle ∧
    ∃ c, c ∈ out.chunks ∧ c.fileName = fn ∧
      f = normalizeBase baseCfg ++ fn ∧ h = H (render c.code) ∧
      g = globalVarFor H fn ∧ d = c.exports.contains "default" := by
  cases hmc : mainChunkOf bundle with
  | none => rw [generateBundle, hmc] at hout; exact absurd hout (by simp)
  | some mc =>
    rw [generateBundle_eq H filter baseCfg bundle mc hmc] at hout
    obtain rfl := Option.some_inj.mp hout
    have hkv := lookup_mem hlk
    rcases objInsert_mem _ _ _ _ hkv with hidx | hmem
    · exact absurd (congrArg Prod.snd hidx) (by simp)
    · obtain ⟨c, hc, hk1, hneed, hcase⟩ := buildManifest_mem _ _ _ _ _ _ hmem
      rcases hcase with ⟨hman, hrec⟩ | ⟨_, hrec⟩
      · simp only at hk1 hrec
        obtain ⟨h1, h2, h3, h4, h5⟩ := ManifestRecord.managedRec.injEq _ _ _ _ _ _ _ _ _ _
          |>.mp hrec
        subst hk1
        exact ⟨h1, hman, c, hc, rfl, h2, h3, h4, h5⟩
      · exact absurd hrec (by simp)

theorem needed_foldl_mono (bundle : List OutputChunk) (managed : List String) :
    ∀ (deps : List String) (p : List String × List String) (x : String), x ∈ p.1 →
      x ∈ (deps.foldl (fun (p : List String × List String) dep =>
          if dep ∈ p.1 then p
          else
            let acc' := p.1 ++ [dep]
            match bundle.find? fun ch => ch.fileName = dep with
            | some _ => if dep ∈ managed then (acc', p.2) else (acc', p.2 ++ [dep])
            | none => (acc', p.2)) p).1 := by
  intro deps
  induction deps with
  | nil => intro p x hx; exact hx
  | cons d ds ih =>
    intro p x hx
    rw [List.foldl_cons]
    apply ih
    by_cases hd : d ∈ p.1
    · rw [if_pos hd]; exact hx
    · rw [if_neg hd]
      cases hf : bundle.find? fun ch => ch.fileName = d with
      | some c =>
        by_cases hm : d ∈ managed
        · simp only [hf, if_pos hm]
          exact List.mem_append_left _ hx
        · simp only [hf, if_neg hm]
          exact List.mem_append_left _ hx
      | none =>
        simp only [hf]
        exact List.mem_append_left _ hx

theorem neededLoop_mono (bundle : List OutputChunk) (managed : List String) :
    ∀ (fuel : Nat) (acc q : List String) (x : String),
      x ∈ acc → x ∈ neededLoop bundle managed fuel acc q := by
  intro fuel
  induction fuel with
  | zero => intro acc q x hx; simpa [neededLoop] using hx
  | succ fuel ih =>
    intro acc q x hx
    cases q with
    | nil => simpa [neededLoop] using hx
    | cons current rest =>
      rw [neededLoop]
      cases hf : bundle.find? fun c => c.fileName = current with
      | none =>
        simp only [hf]
        exact ih acc rest x hx
      | some c =>
        simp only [hf]
        exact ih _ _ x (needed_foldl_mono bundle managed _ (acc, rest) x hx)

theorem managed_sub_needed (bundle : List OutputChunk) (managed : List String)
    (x : String) (hx : x ∈ managed) : x ∈ chunksNeeded bundle managed :=
  neededLoop_mono bundle managed _ managed managed x hx

theorem generateBundle_chunks_names (H : String → String) (filter : String → Bool)
    (baseCfg : String) (bundle : List OutputChunk) (out : BuildOutput)
    (hout : generateBundle H filter baseCfg bundle = some out) :
    out.chunks.map (·.fileName) = bundle.map (·.fileName) := by
  cases hmc : mainChunkOf bundle with
  | none => rw [generateBundle, hmc] at hout; exact absurd hout (by simp)
  | some mc =>
    rw [generateBundle_eq H filter baseCfg bundle mc hmc] at hout
    obtain rfl := Option.some_inj.mp hout
    exact rewriteBundle_names _ _

theorem shimInv_init (chunks : List ManifestChunk) : ShimInv chunks LoaderState.init := by
  intro g rr h
  simp [LoaderState.init, List.lookup] at h

/-! ## Claim C2 -/

/-- Claim C2 (confirmed): for every managed chunk whose record appears
in the manifest, the recorded content hash is the digest `H` of
exactly the chunk's final rewritten bytes (the rendered code of the
chunk as it sits in the build output after Step 2 rewriting has
completely finished); and, provided the digest function is injective
(the collision-freeness of SHA-256), two recorded hashes — across any
two builds — are equal exactly when the corresponding final served
bytes are equal, i.e. the digest changes iff the final bytes change. -/
theorem C2_hash_over_final_bytes :
    ∀ (H : String → String) (filter : String → Bool) (baseCfg : String)
      (bundle bundle₂ : List OutputChunk) (out out₂ : BuildOutput),
      (bundle.map (·.fileName)).Nodup → (bundle₂.map (·.fileName)).Nodup →
      generateBundle H filter baseCfg bundle = some out →
      generateBundle H filter baseCfg bundle₂ = some out₂ →
      ∀ (fn fn₂ fnA fnB f f₂ g g₂ hsh hsh₂ : String) (d d₂ : Bool),
        List.lookup fn out.manifest = some (.managedRec fnA f hsh g d) →
        List.lookup fn₂ out₂.manifest = some (.managedRec fnB f₂ hsh₂ g₂ d₂) →
        (finalBytes out fn).map H = some hsh ∧
        (Function.Injective H →
          (hsh = hsh₂ ↔ finalBytes out fn = finalBytes out₂ fn₂)) := by
  intro H filter baseCfg bundle bundle₂ out out₂ hn hn₂ h1 h2
  intro fn fn₂ fnA fnB f f₂ g g₂ hsh hsh₂ d d₂ hlk hlk₂
  obtain ⟨-, -, c, hc, hcfn, -, hhash, -, -⟩ :=
    manifest_managed_spec H filter baseCfg bundle out h1 fn fnA f hsh g d hlk
  obtain ⟨-, -, c₂, hc₂, hcfn₂, -, hhash₂, -, -⟩ :=
    manifest_managed_spec H filter baseCfg bundle₂ out₂ h2 fn₂ fnB f₂ hsh₂ g₂ d₂ hlk₂
  have hnd : (out.chunks.map (·.fileName)).Nodup := by
    rw [generateBundle_chunks_names H filter baseCfg bundle out h1]; exact hn
  have hnd₂ : (out₂.chunks.map (·.fileName)).Nodup := by
    rw [generateBundle_chunks_names H filter baseCfg bundle₂ out₂ h2]; exact hn₂
  have hfb : finalBytes out fn = some (render c.code) := by
    unfold finalBytes
    rw [← hcfn, find?_fileName_eq out.chunks c hnd hc]
    rfl
  have hfb₂ : finalBytes out₂ fn₂ = some (render c₂.code) := by
    unfold finalBytes
    rw [← hcfn₂, find?_fileName_eq out₂.chunks c₂ hnd₂ hc₂]
    rfl
  constructor
  · rw [hfb, hhash]
    rfl
  · intro hinj
    rw [hfb, hfb₂, hhash, hhash₂]
    constructor
    · intro he
      rw [hinj he]
    · intro he
      rw [Option.some_inj.mp he]

/-- Witness for C2: the digest recorded for the managed demo chunk,
with the identity as the (injective) digest function, is exactly the
chunk's final rewritten bytes; the sensitivity direction is applied to
the demo bundle and its variant with changed bytes. -/
theorem C2_hash_over_final_bytes_witness :
    (finalBytes ((generateBundle (fun s => s) demoFilter "/" demoBundle).getD ⟨[], []⟩)
        "assets/a.js").map (fun s => s) =
      some "import \x7bx\x7d from \"assets/b.js\";" ∧
    ("import \x7bx\x7d from \"assets/b.js\";" =
        "import \x7bx\x7d from \"assets/b.js\";\nconst a = 1;" ↔
      finalBytes ((generateBundle (fun s => s) demoFilter "/" demoBundle).getD ⟨[], []⟩)
          "assets/a.js" =
        finalBytes ((generateBundle (fun s => s) demoFilter "/" demoBundle').getD ⟨[], []⟩)
          "assets/a.js") := by
  have h := C2_hash_over_final_bytes (fun s => s) demoFilter "/" demoBundle demoBundle'
    ((generateBundle (fun s => s) demoFilter "/" demoBundle).getD ⟨[], []⟩)
    ((generateBundle (fun s => s) demoFilter "/" demoBundle').getD ⟨[], []⟩)
    (by decide) (by decide) (by decide) (by decide)
    "assets/a.js" "assets/a.js" "assets/a.js" "assets/a.js"
    "/assets/a.js" "/assets/a.js"
    "__COS_CHUNK_assets/a__" "__COS_CHUNK_assets/a__"
    "import \x7bx\x7d from \"assets/b.js\";"
    "import \x7bx\x7d from \"assets/b.js\";\nconst a = 1;"
    true true (by decide) (by decide)
  exact ⟨h.1, h.2 (fun _ _ hxy => hxy)⟩

/-! ## Claim C9 -/

/-- Claim C9, as stated, is false: the emitted manifest is not of the
shape `{ entry, base, chunks: {...}, unmanaged: [...] }`.  On a
concrete bundle its keys are the chunk file names plus `'index'`, and
none of the top-level keys `entry`, `base`, `chunks`, `unmanaged`
exists. -/
theorem C9_shape_counterexample :
    (generateBundle (fun s => s) demoFilter "/" demoBundle).map
        (fun o => o.manifest.map Prod.fst) =
      some ["assets/a.js", "assets/b.js", "index"] ∧
    (generateBundle (fun s => s) demoFilter "/" demoBundle).map
        (fun o => List.lookup "entry" o.manifest) = some none ∧
    (generateBundle (fun s => s) demoFilter "/" demoBundle).map
        (fun o => List.lookup "base" o.manifest) = some none ∧
    (generateBundle (fun s => s) demoFilter "/" demoBundle).map
        (fun o => List.lookup "chunks" o.manifest) = some none ∧
    (generateBundle (fun s => s) demoFilter "/" demoBundle).map
        (fun o => List.lookup "unmanaged" o.manifest) = some none := by
  refine ⟨?_, ?_, ?_, ?_, ?_⟩ <;> decide

/-- Claim C9 (amended): the manifest is a flat map keyed by chunk file
name: the key `'index'` maps to a record holding only the
base-prefixed entry path; every other entry belongs to a chunk of the
build output that is needed in the import map, and is either a managed
record `{fileName, file, hash, globalVar, hasDefault}` (hash over the
final rewritten bytes) or an unmanaged record `{fileName, file,
unmanaged}`; and every managed chunk not literally named `'index'`
has its managed record present.  The base serving path is not a
separate field — it is folded into each record's `file`. -/
theorem C9_manifest_flat_map :
    ∀ (H : String → String) (filter : String → Bool) (baseCfg : String)
      (bundle : List OutputChunk) (out : BuildOutput),
      generateBundle H filter baseCfg bundle = some out →
      ∃ mc, mainChunkOf bundle = some mc ∧
        List.lookup "index" out.manifest =
          some (.indexRec (normalizeBase baseCfg ++ mc.fileName)) ∧
        (∀ kv ∈ out.manifest,
          kv = ("index", .indexRec (normalizeBase baseCfg ++ mc.fileName)) ∨
          ∃ c, c ∈ out.chunks ∧ kv.1 = c.fileName ∧
            c.fileName ∈ chunksNeeded bundle (managedNames filter bundle) ∧
            ((c.fileName ∈ managedNames filter bundle ∧
              kv.2 = .managedRec c.fileName (normalizeBase baseCfg ++ c.fileName)
                (H (render c.code)) (globalVarFor H c.fileName)
                (c.exports.contains "default")) ∨
             (c.fileName ∉ managedNames filter bundle ∧
              kv.2 = .unmanagedRec c.fileName (normalizeBase baseCfg ++ c.fileName)))) ∧
        (∀ c, (bundle.map (·.fileName)).Nodup → c ∈ out.chunks →
          c.fileName ∈ managedNames filter bundle → c.fileName ≠ "index" →
          List.lookup c.fileName out.manifest =
            some (.managedRec c.fileName (normalizeBase baseCfg ++ c.fileName)
              (H (render c.code)) (globalVarFor H c.fileName)
              (c.exports.contains "default"))) := by
  intro H filter baseCfg bundle out hout
  cases hmc : mainChunkOf bundle with
  | none => rw [generateBundle, hmc] at hout; exact absurd hout (by simp)
  | some mc =>
    rw [generateBundle_eq H filter baseCfg bundle mc hmc] at hout
    obtain rfl := Option.some_inj.mp hout
    refine ⟨mc, rfl, lookup_objInsert_self _ _ _, ?_, ?_⟩
    · intro kv hkv
      rcases objInsert_mem _ _ _ _ hkv with h | h
      · exact Or.inl h
      · obtain ⟨c, hc, hk1, hneed, hcase⟩ := buildManifest_mem _ _ _ _ _ _ h
        exact Or.inr ⟨c, hc, hk1, hneed, hcase⟩
    · intro c hnd hc hman hne
      show List.lookup c.fileName (objInsert "index" _ _) = _
      rw [lookup_objInsert_ne "index" c.fileName _ hne]
      have hndr : ((rewriteBundle (managedNames filter bundle) bundle).map (·.fileName)).Nodup := by
        rw [rewriteBundle_names]; exact hnd
      exact buildManifest_lookup H (normalizeBase baseCfg) _ _ _ c hndr hc
        (managed_sub_needed bundle _ _ hman) hman

/-- Witness for C9 (amended): applied to the demo bundle, exhibiting
the index record and the completeness of the managed record. -/
theorem C9_manifest_flat_map_witness :
    ∃ mc, mainChunkOf demoBundle = some mc ∧
      List.lookup "index"
        ((generateBundle (fun s => s) demoFilter "/" demoBundle).getD ⟨[], []⟩).manifest =
        some (.indexRec (normalizeBase "/" ++ mc.fileName)) ∧
      (∀ kv ∈ ((generateBundle (fun s => s) demoFilter "/" demoBundle).getD ⟨[], []⟩).manifest,
        kv = ("index", .indexRec (normalizeBase "/" ++ mc.fileName)) ∨
        ∃ c, c ∈ ((generateBundle (fun s => s) demoFilter "/" demoBundle).getD ⟨[], []⟩).chunks ∧
          kv.1 = c.fileName ∧
          c.fileName ∈ chunksNeeded demoBundle (managedNames demoFilter demoBundle) ∧
          ((c.fileName ∈ managedNames demoFilter demoBundle ∧
            kv.2 = .managedRec c.fileName (normalizeBase "/" ++ c.fileName)
              ((fun s => s) (render c.code)) (globalVarFor (fun s => s) c.fileName)
              (c.exports.contains "default")) ∨
           (c.fileName ∉ managedNames demoFilter demoBundle ∧
            kv.2 = .unmanagedRec c.fileName (normalizeBase "/" ++ c.fileName)))) ∧
      (∀ c, (demoBundle.map (·.fileName)).Nodup →
        c ∈ ((generateBundle (fun s => s) demoFilter "/" demoBundle).getD ⟨[], []⟩).chunks →
        c.fileName ∈ managedNames demoFilter demoBundle → c.fileName ≠ "index" →
        List.lookup c.fileName
          ((generateBundle (fun s => s) demoFilter "/" demoBundle).getD ⟨[], []⟩).manifest =
          some (.managedRec c.fileName (normalizeBase "/" ++ c.fileName)
            ((fun s => s) (render c.code)) (globalVarFor (fun s => s) c.fileName)
            (c.exports.contains "default"))) :=
  C9_manifest_flat_map (fun s => s) demoFilter "/" demoBundle
    ((generateBundle (fun s => s) demoFilter "/" demoBundle).getD ⟨[], []⟩) (by decide)

/-! ## Claim C10 -/

/-- Claim C10 (confirmed): the entry chunk is never classified as
managed — the include/exclude filter is applied only to non-entry
chunks (`src/index.ts` lines 57-68) — so for any filter and any
bundle (with unique file names), an entry chunk's name is not among
the managed names and the manifest never holds a managed record (and
hence no content hash) under the entry's file name. -/
theorem C10_entry_never_managed :
    ∀ (filter : String → Bool) (bundle : List OutputChunk) (c : OutputChunk),
      (bundle.map (·.fileName)).Nodup → c ∈ bundle → c.isEntry = true →
      c.fileName ∉ managedNames filter bundle ∧
      (∀ (H : String → String) (baseCfg : String) (out : BuildOutput),
        generateBundle H filter baseCfg bundle = some out →
        ∀ (fn' f h g : String) (d : Bool),
          List.lookup c.fileName out.manifest ≠ some (.managedRec fn' f h g d)) := by
  intro filter bundle c hnd hc he
  have hnotman : c.fileName ∉ managedNames filter bundle := by
    intro hmem
    unfold managedNames at hmem
    obtain ⟨c', hc', hfe⟩ := List.mem_map.mp hmem
    obtain ⟨hc'b, hpred⟩ := List.mem_filter.mp hc'
    have hcc : c' = c := List.inj_on_of_nodup_map hnd hc'b hc hfe
    rw [hcc] at hpred
    rw [he] at hpred
    simp at hpred
  refine ⟨hnotman, ?_⟩
  intro H baseCfg out hout fn' f h g d hlk
  obtain ⟨-, hman, -⟩ :=
    manifest_managed_spec H filter baseCfg bundle out hout c.fileName fn' f h g d hlk
  exact hnotman hman

/-- Witness for C10: the demo entry chunk, whose name the demo filter
would not even have to reject, is not managed and has no managed
manifest record. -/
theorem C10_entry_never_managed_witness :
    demoEntry.fileName ∉ managedNames (fun _ => true) demoBundle ∧
    List.lookup demoEntry.fileName
      ((generateBundle (fun s => s) (fun _ => true) "/" demoBundle).getD ⟨[], []⟩).manifest ≠
      some (.managedRec "index-1234.js" "/index-1234.js" "hsh" "gv" false) :=
  ⟨(C10_entry_never_managed (fun _ => true) demoBundle demoEntry
      (by decide) (by decide) (by decide)).1,
   (C10_entry_never_managed (fun _ => true) demoBundle demoEntry
      (by decide) (by decide) (by decide)).2 (fun s => s) "/"
      ((generateBundle (fun s => s) (fun _ => true) "/" demoBundle).getD ⟨[], []⟩)
      (by decide) "index-1234.js" "/index-1234.js" "hsh" "gv" false⟩

/-! ## Claim C8 -/

/-- Claim C8 (confirmed): at build time every managed manifest record's
`hasDefault` field records exactly whether Rollup's export metadata for
that chunk contains a `default` binding; the runtime shim source is the
namespace re-export of the blob URL, extended by an explicit `default`
re-export exactly when the flag is set; and every resolution-table
entry produced by the loader carries a shim built by `buildShim` from
some blob URL and the `hasDefault` flag recorded in the manifest for
exactly that chunk. -/
theorem C8_default_export_shim :
    (∀ (H : String → String) (filter : String → Bool) (baseCfg : String)
      (bundle : List OutputChunk) (out : BuildOutput) (fn fn' f h g : String) (d : Bool),
      generateBundle H filter baseCfg bundle = some out →
      List.lookup fn out.manifest = some (.managedRec fn' f h g d) →
      ∃ c, c ∈ out.chunks ∧ c.fileName = fn ∧ d = c.exports.contains "default") ∧
    (∀ u : String,
      buildShim u false = "export * from \"" ++ u ++ "\";" ∧
      buildShim u true = "export * from \"" ++ u ++ "\";" ++
        ("export \x7b default \x7d from \"" ++ u ++ "\";")) ∧
    (∀ (w : World) (chunks : List ManifestChunk) (fuel : Nat) (fn g : String)
      (rr : ResolvedUrl),
      List.lookup g (resolveChunk w chunks fuel LoaderState.init fn).2.resolvedUrls = some rr →
      ∃ c bu, chunks.find? (fun ch => ch.fileName = g) = some c ∧
        rr.shimUrl = "data:text/javascript;base64," ++ btoa (buildShim bu c.hasDefault)) := by
  refine ⟨?_, ?_, ?_⟩
  · intro H filter baseCfg bundle out fn fn' f h g d hout hlk
    obtain ⟨-, -, c, hc, hcfn, -, -, -, hd⟩ :=
      manifest_managed_spec H filter baseCfg bundle out hout fn fn' f h g d hlk
    exact ⟨c, hc, hcfn, hd⟩
  · intro u
    constructor <;> simp [buildShim]
  · intro w chunks fuel fn g rr hlk
    have hS := (resolveChunk_step w chunks fuel LoaderState.init fn).1.2.2.2.2.2.2.2
      (shimInv_init chunks)
    exact hS g rr hlk

/-- Witness for C8: the demo chunk with a default export gets
`hasDefault = true` recorded, and the resolution-table entry of the
default-exporting chunk `N.js` of the mutual pair carries the
`buildShim`-shaped data URL. -/
theorem C8_default_export_shim_witness :
    (∃ c, c ∈ ((generateBundle (fun s => s) demoFilter "/" demoBundle).getD ⟨[], []⟩).chunks ∧
      c.fileName = "assets/a.js" ∧ true = c.exports.contains "default") ∧
    (∃ c bu, mutualChunks.find? (fun ch => ch.fileName = "N.js") = some c ∧
      ("data:text/javascript;base64,ZXhwb3J0ICogZnJvbSAiYmxvYjpjb3MvMCI7ZXhwb3J0IHsgZGVmYXVsdCB9IGZyb20gImJsb2I6Y29zLzAiOw==" : String) =
        "data:text/javascript;base64," ++ btoa (buildShim bu c.hasDefault)) :=
  ⟨C8_default_export_shim.1 (fun s => s) demoFilter "/" demoBundle
      ((generateBundle (fun s => s) demoFilter "/" demoBundle).getD ⟨[], []⟩)
      "assets/a.js" "assets/a.js" "/assets/a.js"
      "import \x7bx\x7d from \"assets/b.js\";" "__COS_CHUNK_assets/a__" true
      (by decide) (by decide),
   by
    obtain ⟨c, bu, hfind, hurl⟩ := C8_default_export_shim.2.2 mutualWorld mutualChunks 5
      "M.js" "N.js"
      ⟨"blob:cos/0",
        "data:text/javascript;base64,ZXhwb3J0ICogZnJvbSAiYmxvYjpjb3MvMCI7ZXhwb3J0IHsgZGVmYXVsdCB9IGZyb20gImJsb2I6Y29zLzAiOw=="⟩
      (by decide)
    exact ⟨c, bu, hfind, hurl⟩⟩

/-! ## Claim C7 -/

/-- Claim C7, as stated, is false in its registration part: when
managed `B7.js` references the unmanaged `C7.js`, the loader does not
register the reference "directly without a hash lookup" — `C7.js` has
no entry in the hash-bearing manifest map, so `resolveChunk` logs an
unknown-dependency warning and returns `null`, nothing is registered
for `C7.js`, and the raw `./C7.js` reference is left in `B7.js`'s
blob. -/
theorem C7_unmanaged_not_registered_counterexample :
    List.lookup "C7.js"
      (resolveChunk scenarioStoreWorld scenarioChunks 5 LoaderState.init "A7.js").2.resolvedUrls
      = none ∧
    Event.tableInsert "C7.js" ∉
      (resolveChunk scenarioStoreWorld scenarioChunks 5 LoaderState.init "A7.js").2.trace ∧
    List.lookup "blob:cos/0"
      (resolveChunk scenarioStoreWorld scenarioChunks 5 LoaderState.init "A7.js").2.blobs =
      some [Stmt.importNamed "c" "./C7.js"] ∧
    (resolveChunk scenarioStoreWorld scenarioChunks 5 LoaderState.init "C7.js").1 = none := by
  refine ⟨?_, ?_, ?_, ?_⟩ <;> decide

/-- Claim C7 (amended): in the manifest scenario with managed `A7.js`
depending on managed `B7.js` and `B7.js` depending on unmanaged
`C7.js`, resolving `A7.js` triggers the resolution of `B7.js`;
`B7.js`'s reference to `C7.js` is not registered at all (the loader
warns and leaves the reference untouched in the blob); and `A7.js`'s
reference to `B7.js` resolves to `B7.js`'s content-addressed shim —
identically whether `B7.js`'s bytes came from the store or from the
network. -/
theorem C7_scenario_store_or_network :
    (List.lookup "B7.js"
      (resolveChunk scenarioStoreWorld scenarioChunks 5 LoaderState.init "A7.js").2.resolvedUrls).isSome
      = true ∧
    List.lookup "C7.js"
      (resolveChunk scenarioStoreWorld scenarioChunks 5 LoaderState.init "A7.js").2.resolvedUrls
      = none ∧
    List.lookup "blob:cos/0"
      (resolveChunk scenarioStoreWorld scenarioChunks 5 LoaderState.init "A7.js").2.blobs =
      some [Stmt.importNamed "c" "./C7.js"] ∧
    (resolveChunk scenarioStoreWorld scenarioChunks 5 LoaderState.init "A7.js").2.resolvedUrls =
      (resolveChunk scenarioNetWorld scenarioChunks 5 LoaderState.init "A7.js").2.resolvedUrls ∧
    List.lookup "blob:cos/1"
      (resolveChunk scenarioStoreWorld scenarioChunks 5 LoaderState.init "A7.js").2.blobs =
      some [Stmt.importNamed "b"
        "data:text/javascript;base64,ZXhwb3J0ICogZnJvbSAiYmxvYjpjb3MvMCI7"] ∧
    List.lookup "blob:cos/1"
      (resolveChunk scenarioNetWorld scenarioChunks 5 LoaderState.init "A7.js").2.blobs =
      some [Stmt.importNamed "b"
        "data:text/javascript;base64,ZXhwb3J0ICogZnJvbSAiYmxvYjpjb3MvMCI7"] := by
  refine ⟨?_, ?_, ?_, ?_, ?_, ?_⟩ <;> decide

/-! ## Claim C4: statement-level rewrite lemmas -/

theorem spec?_withSpec (s : Stmt) (sp v : String) (h : s.spec? = some sp) :
    (s.withSpec v).spec? = some v := by
  cases s <;> simp [Stmt.spec?, Stmt.withSpec] at h ⊢

theorem rewriteStmtBuild_hit (rp b : String) (s : Stmt) (sp : String)
    (h : s.spec? = some sp) (he : sp = rp) : rewriteStmtBuild rp b s = s.withSpec b := by
  unfold rewriteStmtBuild
  rw [h, he]
  simp

theorem rewriteStmtBuild_miss (rp b : String) (s : Stmt) (sp : String)
    (h : s.spec? = some sp) (hne : sp ≠ rp) : rewriteStmtBuild rp b s = s := by
  unfold rewriteStmtBuild
  rw [h]
  simp [hne]

theorem fold_no_match (f : String) (managed : List String) :
    ∀ (ns : List String) (s : Stmt) (sp : String), s.spec? = some sp →
      (∀ n ∈ ns, sp ≠ relPathOf f n) →
      ns.foldl (fun s' n => if n ∈ managed ∨ f ∈ managed
        then rewriteStmtBuild (relPathOf f n) n s' else s') s = s := by
  intro ns
  induction ns with
  | nil => intro s sp _ _; rfl
  | cons n ns ih =>
    intro s sp hsp hne
    rw [List.foldl_cons]
    have hstep : (if n ∈ managed ∨ f ∈ managed
        then rewriteStmtBuild (relPathOf f n) n s else s) = s := by
      by_cases hc : n ∈ managed ∨ f ∈ managed
      · rw [if_pos hc]
        exact rewriteStmtBuild_miss _ _ s sp hsp (hne n (List.mem_cons_self _ _))
      · rw [if_neg hc]
    rw [hstep]
    exact ih s sp hsp fun n' hn' => hne n' (List.mem_cons_of_mem _ hn')

theorem fold_hit (f : String) (managed : List String) :
    ∀ (ns : List String) (s : Stmt) (target : String),
      s.spec? = some (relPathOf f target) →
      target ∈ ns → ns.Nodup →
      (∀ n ∈ ns, relPathOf f n = relPathOf f target → n = target) →
      (∀ n ∈ ns, ∀ n' ∈ ns, relPathOf f n ≠ n') →
      ns.foldl (fun s' n => if n ∈ managed ∨ f ∈ managed
        then rewriteStmtBuild (relPathOf f n) n s' else s') s =
      (if target ∈ managed ∨ f ∈ managed then s.withSpec target else s) := by
  intro ns
  induction ns with
  | nil => intro s target _ htm; simp at htm
  | cons n ns ih =>
    intro s target hsp htm hnd hinj hbare
    rw [List.nodup_cons] at hnd
    obtain ⟨hnn, hnd'⟩ := hnd
    rw [List.foldl_cons]
    by_cases heq : n = target
    · subst heq
      have hnotin : n ∉ ns := hnn
      by_cases hc : n ∈ managed ∨ f ∈ managed
      · rw [if_pos hc, if_pos hc,
          rewriteStmtBuild_hit (relPathOf f n) n s (relPathOf f n) hsp rfl]
        apply fold_no_match f managed ns (s.withSpec n) n
          (spec?_withSpec s (relPathOf f n) n hsp)
        intro n' hn' hcontra
        exact hbare n' (List.mem_cons_of_mem _ hn') n (List.mem_cons_self _ _) hcontra.symm
      · rw [if_neg hc, if_neg hc]
        apply fold_no_match f managed ns s (relPathOf f n) hsp
        intro n' hn' hcontra
        have := hinj n' (List.mem_cons_of_mem _ hn') hcontra.symm
        exact hnotin (this ▸ hn')
    · have htm' : target ∈ ns := by
        rcases List.mem_cons.mp htm with h | h
        · exact absurd h.symm heq
        · exact h
      have hstep : (if n ∈ managed ∨ f ∈ managed
          then rewriteStmtBuild (relPathOf f n) n s else s) = s := by
        by_cases hc : n ∈ managed ∨ f ∈ managed
        · rw [if_pos hc]
          refine rewriteStmtBuild_miss _ _ s (relPathOf f target) hsp ?_
          intro hcontra
          exact heq (hinj n (List.mem_cons_self _ _) hcontra.symm)
        · rw [if_neg hc]
      rw [hstep]
      exact ih s target hsp htm' hnd'
        (fun n' hn' => hinj n' (List.mem_cons_of_mem _ hn'))
        (fun n₁ h₁ n₂ h₂ => hbare n₁ (List.mem_cons_of_mem _ h₁) n₂ (List.mem_cons_of_mem _ h₂))

theorem rewriteChunk_code_get (managed : List String) :
    ∀ (depNames : List String) (c : OutputChunk) (i : Nat),
      (rewriteChunk managed depNames c).code[i]? =
        (c.code[i]?).map (fun s => depNames.foldl
          (fun s' n => if n ∈ managed ∨ c.fileName ∈ managed
            then rewriteStmtBuild (relPathOf c.fileName n) n s' else s') s) := by
  intro depNames
  induction depNames with
  | nil =>
    intro c i
    show c.code[i]? = _
    cases c.code[i]? <;> rfl
  | cons n ns ih =>
    intro c i
    unfold rewriteChunk at *
    rw [List.foldl_cons]
    by_cases hc : n ∈ managed ∨ c.fileName ∈ managed
    · rw [if_pos hc]
      rw [ih { c with code := c.code.map (rewriteStmtBuild (relPathOf c.fileName n) n) } i]
      show (List.map (rewriteStmtBuild (relPathOf c.fileName n) n) c.code)[i]?.map _ = _
      rw [List.getElem?_map]
      cases hgi : c.code[i]? with
      | none => rfl
      | some s =>
        simp only [Option.map_some']
        rw [List.foldl_cons, if_pos hc]
    · rw [if_neg hc]
      rw [ih c i]
      cases hgi : c.code[i]? with
      | none => rfl
      | some s =>
        simp only [Option.map_some']
        rw [List.foldl_cons, if_neg hc]

/-- Claim C4 (confirmed): during Step 2 rewriting, a reference from an
importer chunk to a dependency chunk (a statement whose specifier is
the exact relative path the rewriter computes for that pair) is
rewritten to the dependency's bare file name exactly when the importer
chunk or the dependency chunk is managed; when neither is managed the
statement is left untouched.  The hypotheses say the bundle's file
names are distinct, distinct dependencies have distinct relative
specifiers from this importer, and no relative specifier collides with
a bare file name (true for Rollup outputs, whose names never start
with a dot). -/
theorem C4_rewrite_iff_managed :
    ∀ (filter : String → Bool) (bundle : List OutputChunk) (imp dep : OutputChunk)
      (j : Nat), bundle[j]? = some imp → dep ∈ bundle →
      (bundle.map (·.fileName)).Nodup →
      (∀ c₁ ∈ bundle, relPathOf imp.fileName c₁.fileName =
        relPathOf imp.fileName dep.fileName → c₁.fileName = dep.fileName) →
      (∀ c₁ ∈ bundle, ∀ c₂ ∈ bundle, relPathOf imp.fileName c₁.fileName ≠ c₂.fileName) →
      ∀ (i : Nat) (s : Stmt), imp.code[i]? = some s →
        s.spec? = some (relPathOf imp.fileName dep.fileName) →
        ∃ imp', (rewriteBundle (managedNames filter bundle) bundle)[j]? = some imp' ∧
          imp'.code[i]? = some (if dep.fileName ∈ managedNames filter bundle ∨
              imp.fileName ∈ managedNames filter bundle
            then s.withSpec dep.fileName else s) := by
  intro filter bundle imp dep j hj hdep hnd hinj hbare i s hsi hspec
  refine ⟨rewriteChunk (managedNames filter bundle) (bundle.map (·.fileName)) imp, ?_, ?_⟩
  · unfold rewriteBundle
    rw [List.getElem?_map, hj]
    rfl
  · rw [rewriteChunk_code_get (managedNames filter bundle) (bundle.map (·.fileName)) imp i,
      hsi, Option.map_some']
    congr 1
    rw [fold_hit imp.fileName (managedNames filter bundle) (bundle.map (·.fileName)) s
      dep.fileName hspec (List.mem_map_of_mem _ hdep) hnd ?_ ?_]
    · intro n hn he
      obtain ⟨c₁, hc₁, rfl⟩ := List.mem_map.mp hn
      exact hinj c₁ hc₁ he
    · intro n₁ h₁ n₂ h₂
      obtain ⟨c₁, hc₁, rfl⟩ := List.mem_map.mp h₁
      obtain ⟨c₂, hc₂, rfl⟩ := List.mem_map.mp h₂
      exact hbare c₁ hc₁ c₂ hc₂

/-- Witness for C4: in the demo bundle, the managed chunk
`assets/a.js`'s reference `./b.js` to the unmanaged `assets/b.js` is
rewritten to the bare specifier (importer managed), as the theorem's
if-condition selects. -/
theorem C4_rewrite_iff_managed_witness :
    ∃ imp', (rewriteBundle (managedNames demoFilter demoBundle) demoBundle)[1]? = some imp' ∧
      imp'.code[0]? = some (if demoB.fileName ∈ managedNames demoFilter demoBundle ∨
          demoA.fileName ∈ managedNames demoFilter demoBundle
        then (Stmt.importNamed "x" "./b.js").withSpec demoB.fileName
        else Stmt.importNamed "x" "./b.js") :=
  C4_rewrite_iff_managed demoFilter demoBundle demoA demoB 1 (by decide) (by decide)
    (by decide) (by decide) (by decide) 0 (Stmt.importNamed "x" "./b.js")
    (by decide) (by decide)

end COS
